import Mathlib

/-!
Verification of the poker hand-evaluation / simulation library.

The definitions below are a shallow embedding of the JavaScript sources:
`src/lib/card-utils.js`, `src/lib/hand-eval.js`, `src/lib/poker-table.js`,
`src/lib/random-utils.js` and `src/lib/simulator.js`.  Pure JS functions
become Lean functions; functions that `throw new XError(...)` return
`Except Err`; the two error kinds that appear in those files
(`XError.INVALID_ARGUMENT`, `XError.INTERNAL_ERROR`) become the
two constructors of `Err`.
-/

deriving instance DecidableEq for Except

namespace PokerSim

open scoped List

/-- The two error kinds thrown by the sources: `XError.INVALID_ARGUMENT`
and `XError.INTERNAL_ERROR`. -/
inductive Err where
  | invalidArgument
  | internalError
deriving DecidableEq, Repr

/-- Card component record: `{ cardId, value, suit }` as produced by
`getCardComponents` in `card-utils.js`. -/
structure Card where
  cardId : Nat
  value : Nat
  suit : Nat
deriving DecidableEq, Repr

/-- `validateCard` (card-utils.js): a cardId must be an integer in 1..52.
(The embedding uses `Nat`, so the number/integer checks are inherent.) -/
def validateCard (cardId : Nat) : Except Err Unit :=
  if cardId < 1 ∨ cardId > 52 then .error .invalidArgument else .ok ()

/-- The components computed by `getCardComponents` for an id
(the arithmetic part, factored out of the validation). -/
def cardComponents (cardId : Nat) : Card :=
  let v0 := cardId % 13 + 1
  let value := if v0 = 1 then 14 else v0
  let suit := (cardId - 1) / 13 + 1
  { cardId := cardId, value := value, suit := suit }

/-- `getCardComponents` (card-utils.js): validates the id and returns the
suit and value of the card.  (The JS convenience overload that passes an
already-decomposed object through does not arise in the typed embedding.) -/
def getCardComponents (cardId : Nat) : Except Err Card := do
  _ ← validateCard cardId
  .ok (cardComponents cardId)

/-- `getCardComponentsArray` (card-utils.js). -/
def getCardComponentsArray (cardIdArray : List Nat) : Except Err (List Card) :=
  cardIdArray.mapM getCardComponents

/-- `getCardIdFromComponents` (card-utils.js): inverse of `getCardComponents`. -/
def getCardIdFromComponents (value suit : Nat) : Except Err Nat :=
  if value < 2 ∨ value > 14 then .error .invalidArgument
  else if suit < 1 ∨ suit > 4 then .error .invalidArgument
  else .ok ((suit - 1) * 13 + (value - 1))

/-! ### A generic sort by a JS-style comparator

`Array.prototype.sort(cmp)` with a consistent comparator returns the list
ordered so that `cmp a b ≤ 0` holds pairwise.  All comparators in the
sources are consistent total preorders, and on the (duplicate-free) inputs
they are applied to they never return `0` for distinct elements, so the
sorted output is unique; we embed the sort as an insertion sort by
`cmp a b ≤ 0`. -/

/-- Insert `a` into `l` before the first element `b` with `cmp a b ≤ 0`. -/
def insertCmp (cmp : α → α → Int) (a : α) : List α → List α
  | [] => [a]
  | b :: l => if cmp a b ≤ 0 then a :: b :: l else b :: insertCmp cmp a l

/-- Sort by a JS comparator (see `insertCmp`). -/
def sortCmp (cmp : α → α → Int) : List α → List α
  | [] => []
  | a :: l => insertCmp cmp a (sortCmp cmp l)

theorem insertCmp_perm (cmp : α → α → Int) (a : α) (l : List α) :
    insertCmp cmp a l ~ a :: l := by
  induction l with
  | nil => simp [insertCmp]
  | cons b l ih =>
    simp only [insertCmp]
    split
    · exact List.Perm.refl _
    · exact ((ih.cons b).trans (List.Perm.swap a b l))

theorem sortCmp_perm (cmp : α → α → Int) (l : List α) : sortCmp cmp l ~ l := by
  induction l with
  | nil => simp [sortCmp]
  | cons a l ih =>
    exact (insertCmp_perm cmp a (sortCmp cmp l)).trans (ih.cons a)

/-- `cmp`-sortedness: every element is `≤` (via the comparator) all later ones. -/
def SortedCmp (cmp : α → α → Int) (l : List α) : Prop :=
  l.Pairwise (fun a b => cmp a b ≤ 0)

theorem insertCmp_sorted {cmp : α → α → Int}
    (total : ∀ a b, cmp a b ≤ 0 ∨ cmp b a ≤ 0)
    (trans : ∀ a b c, cmp a b ≤ 0 → cmp b c ≤ 0 → cmp a c ≤ 0)
    (a : α) {l : List α} (hl : SortedCmp cmp l) :
    SortedCmp cmp (insertCmp cmp a l) := by
  induction l with
  | nil => simp [insertCmp, SortedCmp]
  | cons b l ih =>
    simp only [insertCmp]
    rcases List.pairwise_cons.1 hl with ⟨hb, hl'⟩
    split
    · rename_i hab
      refine List.pairwise_cons.2 ⟨?_, hl⟩
      intro x hx
      rcases List.mem_cons.1 hx with hx | hx
      · rw [hx]; exact hab
      · exact trans a b x hab (hb x hx)
    · rename_i hab
      have hba : cmp b a ≤ 0 := (total a b).resolve_left hab
      refine List.pairwise_cons.2 ⟨?_, ih hl'⟩
      intro x hx
      have hx' := (insertCmp_perm cmp a l).mem_iff.1 hx
      rcases List.mem_cons.1 hx' with hx' | hx'
      · rw [hx']; exact hba
      · exact hb x hx'

theorem sortCmp_sorted {cmp : α → α → Int}
    (total : ∀ a b, cmp a b ≤ 0 ∨ cmp b a ≤ 0)
    (trans : ∀ a b c, cmp a b ≤ 0 → cmp b c ≤ 0 → cmp a c ≤ 0)
    (l : List α) : SortedCmp cmp (sortCmp cmp l) := by
  induction l with
  | nil => simp [sortCmp, SortedCmp]
  | cons a l ih => exact insertCmp_sorted total trans a ih

/-- Two sorted permutations of each other are equal, provided the comparator
is antisymmetric on the elements involved. -/
theorem sorted_perm_eq {cmp : α → α → Int} :
    ∀ {l₁ l₂ : List α}, l₁ ~ l₂ → SortedCmp cmp l₁ → SortedCmp cmp l₂ →
    (∀ a ∈ l₁, ∀ b ∈ l₁, cmp a b ≤ 0 → cmp b a ≤ 0 → a = b) → l₁ = l₂ := by
  intro l₁
  induction l₁ with
  | nil => intro l₂ hp _ _ _; simpa using hp.nil_eq
  | cons a t₁ ih =>
    intro l₂ hp hs₁ hs₂ hanti
    cases l₂ with
    | nil => exact absurd hp.symm (by simp)
    | cons b t₂ =>
      have hab : a = b := by
        by_contra hne
        have ha2 : a ∈ b :: t₂ := hp.subset (by simp)
        have hb1 : b ∈ a :: t₁ := hp.symm.subset (by simp)
        have ha2' : a ∈ t₂ := by
          rcases List.mem_cons.1 ha2 with h | h
          · exact absurd h hne
          · exact h
        have hb1' : b ∈ t₁ := by
          rcases List.mem_cons.1 hb1 with h | h
          · exact absurd h.symm hne
          · exact h
        have h1 : cmp a b ≤ 0 := (List.pairwise_cons.1 hs₁).1 b hb1'
        have h2 : cmp b a ≤ 0 := (List.pairwise_cons.1 hs₂).1 a ha2'
        exact hne (hanti a (by simp) b (by simp [hb1']) h1 h2)
      subst hab
      have hp' : t₁ ~ t₂ := hp.cons_inv
      have : t₁ = t₂ := by
        refine ih hp' (List.pairwise_cons.1 hs₁).2 (List.pairwise_cons.1 hs₂).2 ?_
        intro x hx y hy h1 h2
        exact hanti x (by simp [hx]) y (by simp [hy]) h1 h2
      rw [this]

/-- Sorting by a comparator is invariant under permutation of the input, as
long as the comparator is total, transitive, and antisymmetric on the
elements of the input. -/
theorem sortCmp_congr {cmp : α → α → Int}
    (total : ∀ a b, cmp a b ≤ 0 ∨ cmp b a ≤ 0)
    (trans : ∀ a b c, cmp a b ≤ 0 → cmp b c ≤ 0 → cmp a c ≤ 0)
    {l₁ l₂ : List α} (hp : l₁ ~ l₂)
    (hanti : ∀ a ∈ l₁, ∀ b ∈ l₁, cmp a b ≤ 0 → cmp b a ≤ 0 → a = b) :
    sortCmp cmp l₁ = sortCmp cmp l₂ := by
  refine sorted_perm_eq ((sortCmp_perm cmp l₁).trans (hp.trans (sortCmp_perm cmp l₂).symm))
    (sortCmp_sorted total trans l₁) (sortCmp_sorted total trans l₂) ?_
  intro a ha b hb h1 h2
  exact hanti a ((sortCmp_perm cmp l₁).mem_iff.1 ha) b ((sortCmp_perm cmp l₁).mem_iff.1 hb) h1 h2

/-! ### hand-eval.js: result records and helpers -/

/-- One entry of a straight-draw's `draws` array. -/
structure StraightDraw where
  cardsToStraight : Nat
  highValue : Nat
  neededValues : List Nat
deriving DecidableEq, Repr

/-- A hand evaluation object.  JS result objects carry only the fields
relevant to their `type`; the embedding is a single record where unused
fields keep their default values. -/
structure HandResult where
  type : String := ""
  suit : Nat := 0
  highValue : Nat := 0
  value : Nat := 0
  threeValue : Nat := 0
  twoValue : Nat := 0
  values : List Nat := []
  kickerValues : List Nat := []
  cardIds : List Nat := []
  remainingCards : Int := 0
  highestCardsToStraight : Nat := 0
  highestCardsToStraightCombinations : Nat := 0
  draws : List StraightDraw := []
deriving DecidableEq, Repr

/-- Placeholder card for the (unreachable) JS `undefined[...]` accesses. -/
def noCard : Card := ⟨0, 0, 0⟩

/-- `getCardIdsFromCardArray` (hand-eval.js). -/
def getCardIdsFromCardArray (cardArray : List Card) : List Nat :=
  cardArray.map Card.cardId

/-- `getCardValuesFromCardArray` (hand-eval.js). -/
def getCardValuesFromCardArray (cardArray : List Card) : List Nat :=
  cardArray.map Card.value

/-- The comparator used for `cardsByValue` and inside `getKickers`:
descending by value, then descending by suit. -/
def cmpCardsByValue (a b : Card) : Int :=
  if a.value > b.value then -1
  else if a.value < b.value then 1
  else if a.suit > b.suit then -1
  else if a.suit < b.suit then 1
  else 0

/-- The comparator used for `cardsBySuit`: descending by suit, then by value. -/
def cmpCardsBySuit (a b : Card) : Int :=
  if a.suit > b.suit then -1
  else if a.suit < b.suit then 1
  else if a.value > b.value then -1
  else if a.value < b.value then 1
  else 0

/-- The comparator used for `cardGroupsBySize`: descending by group size,
then by the group's value (`a[0].value`; groups are never empty). -/
def cmpGroupsBySize (a b : List Card) : Int :=
  if a.length > b.length then -1
  else if a.length < b.length then 1
  else if (a.headD noCard).value > (b.headD noCard).value then -1
  else if (a.headD noCard).value < (b.headD noCard).value then 1
  else 0

/-- `getKickers` (hand-eval.js): cards of the hand not used by the result
group, sorted descending by value then suit. -/
def getKickers (cardsInHand resultCards : List Card) : List Card :=
  sortCmp cmpCardsByValue
    (cardsInHand.filter (fun c => decide (c.cardId ∉ resultCards.map Card.cardId)))

/-- Lexicographic walk of `compareValueArrays` (after the length check). -/
def compareValueArraysGo : List Nat → List Nat → Int
  | a :: as, b :: bs =>
    if a > b then -1 else if a < b then 1 else compareValueArraysGo as bs
  | _, _ => 0

/-- `compareValueArrays` (hand-eval.js): throws `INTERNAL_ERROR` on arrays
of unequal length, else compares lexicographically. -/
def compareValueArrays (a b : List Nat) : Except Err Int :=
  if a.length ≠ b.length then .error .internalError
  else .ok (compareValueArraysGo a b)

/-! ### The evaluation context (`getEvalContext`) -/

/-- The precomputed context handed to every evaluator. -/
structure EvalContext where
  hand : List Nat
  cards : List Card
  cardsByValue : List Card
  cardGroupsBySize : List (List Card)
  cardsBySuit : List Card
deriving DecidableEq, Repr

/-- Walk of the grouping loop in `getEvalContext`: groups adjacent cards of
equal value (`card.value === currentGroup[0].value`). -/
def groupRunsGo (hd : Card) (tl : List Card) : List Card → List (List Card)
  | [] => [hd :: tl]
  | c :: rest =>
    if c.value = hd.value then groupRunsGo hd (tl ++ [c]) rest
    else (hd :: tl) :: groupRunsGo c [] rest

/-- Adjacent grouping of `cardsByValue` by equal value. -/
def groupRuns : List Card → List (List Card)
  | [] => []
  | c :: rest => groupRunsGo c [] rest

/-- The antiduplication check of `getEvalContext`: two adjacent entries of
`cardsBySuit` with the same `cardId`. -/
def hasAdjacentDup : List Card → Bool
  | a :: b :: rest => a.cardId = b.cardId || hasAdjacentDup (b :: rest)
  | _ => false

/-- `getEvalContext` (hand-eval.js). -/
def getEvalContext (hand : List Nat) : Except Err EvalContext :=
  if hand.length < 5 then .error .invalidArgument
  else if 7 < hand.length then .error .invalidArgument
  else
    match getCardComponentsArray hand with
    | .error e => .error e
    | .ok cards =>
      let cardsByValue := sortCmp cmpCardsByValue cards
      let cardGroupsBySize := sortCmp cmpGroupsBySize (groupRuns cardsByValue)
      let cardsBySuit := sortCmp cmpCardsBySuit cards
      if hasAdjacentDup cardsBySuit then .error .invalidArgument
      else .ok { hand := hand, cards := cards, cardsByValue := cardsByValue,
                 cardGroupsBySize := cardGroupsBySize, cardsBySuit := cardsBySuit }

/-! ### The evaluators -/

/-- `acesBySuit[card.suit] = card` for aces, in the straight-flush scan. -/
def updAcesBySuit (aces : Nat → Option Card) (c : Card) : Nat → Option Card :=
  if c.value = 14 then fun s => if s = c.suit then some c else aces s else aces

/-- The scan of the straight-flush evaluator over `cardsBySuit`.  The
current straight is `hd :: tl` (`hd` is `currentStraight[0]`); the last
entry is `tl.getLastD hd`.  (`c.value + 1 = lastVal` embeds the JS
`card.value === last.value - 1` without `Nat` truncation at 0.) -/
def sfLoop (aces : Nat → Option Card) (hd : Card) (tl : List Card) :
    List Card → Option (List Card)
  | [] => if (hd :: tl).length = 5 then some (hd :: tl) else none
  | c :: rest =>
    let aces' := updAcesBySuit aces c
    if c.suit = hd.suit ∧ c.value + 1 = (tl.getLastD hd).value then
      let run := hd :: (tl ++ [c])
      if run.length = 5 then some run
      else if run.length = 4 ∧ c.value = 2 then
        match aces' hd.suit with
        | some ace => some (run ++ [ace])
        | none => sfLoop aces' hd (tl ++ [c]) rest
      else sfLoop aces' hd (tl ++ [c]) rest
    else sfLoop aces' c [] rest

/-- `evaluators['straight-flush'].evaluate`. -/
def straightFlushEvaluate (ctx : EvalContext) : Option HandResult :=
  match ctx.cardsBySuit with
  | [] => none   -- unreachable: the JS code would fault on an empty hand
  | c :: rest =>
    match sfLoop (updAcesBySuit (fun _ => none) c) c [] rest with
    | some run =>
      some { suit := (run.headD noCard).suit,
             highValue := (run.headD noCard).value,
             cardIds := getCardIdsFromCardArray run }
    | none => none

/-- `evaluators['four-of-a-kind'].evaluate`.  The JS loop body ends in an
unconditional `break`, so only the first (largest) group is examined.
`cardIds` appends `kickers[0]`, embedded as `kickers.take 1` (the kicker
list is never empty on 5+ card hands). -/
def fourOfAKindEvaluate (ctx : EvalContext) : Option HandResult :=
  match ctx.cardGroupsBySize with
  | [] => none
  | g :: _ =>
    if 4 ≤ g.length then
      let winningGroup := g.take 4
      let kickers := getKickers ctx.cards winningGroup
      some { value := (winningGroup.headD noCard).value,
             kickerValues := getCardValuesFromCardArray (kickers.take 1),
             cardIds := getCardIdsFromCardArray (winningGroup ++ kickers.take 1) }
    else none

/-- The group scan of the full-house evaluator: finds the triple, then a
later pair (a second triple also provides the pair). -/
def fhLoop (three two : Option (List Card)) :
    List (List Card) → Option (List Card) × Option (List Card)
  | [] => (three, two)
  | g :: rest =>
    if 3 ≤ g.length then
      match three, two with
      | none, t => fhLoop (some (g.take 3)) t rest
      | some t, none => (some t, some (g.take 2))
      | some t, some w => fhLoop (some t) (some w) rest
    else if g.length = 2 then
      match two with
      | none => (three, some (g.take 2))
      | some w => (three, some w)
    else (three, two)

/-- `evaluators['full-house'].evaluate`. -/
def fullHouseEvaluate (ctx : EvalContext) : Option HandResult :=
  match fhLoop none none ctx.cardGroupsBySize with
  | (some threeGroup, some twoGroup) =>
    some { threeValue := (threeGroup.headD noCard).value,
           twoValue := (twoGroup.headD noCard).value,
           cardIds := getCardIdsFromCardArray (threeGroup ++ twoGroup) }
  | _ => none

/-- The scan of the flush evaluator over `cardsBySuit`. -/
def flushLoop (hd : Card) (tl : List Card) : List Card → Option (List Card)
  | [] => none
  | c :: rest =>
    if c.suit = hd.suit then
      let run := hd :: (tl ++ [c])
      if run.length = 5 then some run
      else flushLoop hd (tl ++ [c]) rest
    else flushLoop c [] rest

/-- `evaluators['flush'].evaluate`. -/
def flushEvaluate (ctx : EvalContext) : Option HandResult :=
  match ctx.cardsBySuit with
  | [] => none
  | c :: rest =>
    match flushLoop c [] rest with
    | some run =>
      some { suit := (run.headD noCard).suit,
             kickerValues := getCardValuesFromCardArray run,
             cardIds := getCardIdsFromCardArray run }
    | none => none

/-- `aceCard` update of the straight evaluator: keeps the first ace seen. -/
def stAce (ace : Option Card) (c : Card) : Option Card :=
  if c.value = 14 ∧ ace = none then some c else ace

/-- The scan of the straight evaluator over `cardsByValue`: cards with the
same value as the current last entry are skipped, a value lower by one
extends the straight, anything else restarts it. -/
def stLoop (ace : Option Card) (hd : Card) (tl : List Card) :
    List Card → Option (List Card)
  | [] => if (hd :: tl).length = 5 then some (hd :: tl) else none
  | c :: rest =>
    let ace' := stAce ace c
    if c.value = (tl.getLastD hd).value then stLoop ace' hd tl rest
    else if c.value + 1 = (tl.getLastD hd).value then
      let run := hd :: (tl ++ [c])
      if run.length = 5 then some run
      else if run.length = 4 ∧ c.value = 2 then
        match ace' with
        | some a => some (run ++ [a])
        | none => stLoop ace' hd (tl ++ [c]) rest
      else stLoop ace' hd (tl ++ [c]) rest
    else stLoop ace' c [] rest

/-- `evaluators['straight'].evaluate`. -/
def straightEvaluate (ctx : EvalContext) : Option HandResult :=
  match ctx.cardsByValue with
  | [] => none
  | c :: rest =>
    match stLoop (stAce none c) c [] rest with
    | some run =>
      some { highValue := (run.headD noCard).value,
             cardIds := getCardIdsFromCardArray run }
    | none => none

/-- `evaluators['three-of-a-kind'].evaluate` (again only the first group is
reachable before the loop breaks). -/
def threeOfAKindEvaluate (ctx : EvalContext) : Option HandResult :=
  match ctx.cardGroupsBySize with
  | [] => none
  | g :: _ =>
    if 3 ≤ g.length then
      let threeGroup := g.take 3
      let kickers := (getKickers ctx.cards threeGroup).take 2
      some { value := (threeGroup.headD noCard).value,
             kickerValues := getCardValuesFromCardArray kickers,
             cardIds := getCardIdsFromCardArray (threeGroup ++ kickers) }
    else none

/-- The group scan of the two-pair evaluator: collects `slice(0,2)` of
qualifying groups, stopping at two groups or at the first group smaller
than a pair. -/
def twoPairLoop (acc : List (List Card)) : List (List Card) → List (List Card)
  | [] => acc
  | g :: rest =>
    if 2 ≤ g.length then
      let acc' := acc ++ [g.take 2]
      if acc'.length = 2 then acc' else twoPairLoop acc' rest
    else acc

/-- `evaluators['two-pair'].evaluate`. -/
def twoPairEvaluate (ctx : EvalContext) : Option HandResult :=
  match twoPairLoop [] ctx.cardGroupsBySize with
  | [g1, g2] =>
    let twoPairCards := g1 ++ g2
    let kickers := (getKickers ctx.cards twoPairCards).take 1
    some { values := [(g1.headD noCard).value, (g2.headD noCard).value],
           kickerValues := getCardValuesFromCardArray kickers,
           cardIds := getCardIdsFromCardArray (twoPairCards ++ kickers) }
  | _ => none

/-- `evaluators['pair'].evaluate`. -/
def pairEvaluate (ctx : EvalContext) : Option HandResult :=
  match ctx.cardGroupsBySize with
  | [] => none
  | g :: _ =>
    if 2 ≤ g.length then
      let twoGroup := g.take 2
      let kickers := (getKickers ctx.cards twoGroup).take 3
      some { value := (twoGroup.headD noCard).value,
             kickerValues := getCardValuesFromCardArray kickers,
             cardIds := getCardIdsFromCardArray (twoGroup ++ kickers) }
    else none

/-- `evaluators['high-cards'].evaluate`: always the 5 highest cards. -/
def highCardsEvaluate (ctx : EvalContext) : Option HandResult :=
  let kickers := ctx.cardsByValue.take 5
  some { kickerValues := getCardValuesFromCardArray kickers,
         cardIds := getCardIdsFromCardArray kickers }

/-- The scan of the flush-draw evaluator: returns the best completed run
and the run still open when the loop ends. -/
def fdLoop (best : Option (List Card)) (hd : Card) (tl : List Card) :
    List Card → Option (List Card) × List Card
  | [] => (best, hd :: tl)
  | c :: rest =>
    if c.suit = hd.suit then fdLoop best hd (tl ++ [c]) rest
    else
      let best' :=
        match best with
        | none => some (hd :: tl)
        | some b => if b.length < (hd :: tl).length then some (hd :: tl) else some b
      fdLoop best' c [] rest

/-- The final `bestFlush` update after the flush-draw scan loop ends. -/
def fdBestFlush (scanned : Option (List Card) × List Card) : List Card :=
  match scanned.1 with
  | none => scanned.2
  | some b => if b.length < scanned.2.length then scanned.2 else b

/-- The result object built by a successful flush-draw evaluation (after
the truncation to at most 5 cards). -/
def fdResult (bestFlush : List Card) : HandResult :=
  { suit := (bestFlush.headD noCard).suit,
    remainingCards := (5 : Int) - bestFlush.length,
    kickerValues := getCardValuesFromCardArray bestFlush,
    cardIds := getCardIdsFromCardArray bestFlush }

/-- `evaluators['flush-draw'].evaluate`. -/
def flushDrawEvaluate (ctx : EvalContext) : Option HandResult :=
  let minFlushLength := if 3 < ctx.cards.length - 2 then ctx.cards.length - 2 else 3
  match ctx.cardsBySuit with
  | [] => none   -- unreachable: the JS code would fault on an empty hand
  | c :: rest =>
    let bestFlush := fdBestFlush (fdLoop none c [] rest)
    if minFlushLength ≤ bestFlush.length then
      some (fdResult (if 5 < bestFlush.length then bestFlush.take 5 else bestFlush))
    else none

/-- `handValueSet` of the straight-draw evaluator: the group values, plus
`ACE_LOW` when an ace is present (membership models the JS object-set). -/
def sdHandValueSet (groups : List (List Card)) : List Nat :=
  let vals := groups.map (fun g => (g.headD noCard).value)
  if 14 ∈ vals then vals ++ [1] else vals

/-- Inner loop of the straight-draw evaluator, collecting the values
missing from the straight headed at `head` (`k` walks `0..4`); `ACE_LOW`
is recorded as the ace (unshifted to the front); collection stops once the
limit `5 - minCardsToStraight` is exceeded. -/
def sdNeededGo (hvs : List Nat) (limit head : Nat) : List Nat → List Nat → List Nat
  | [], acc => acc
  | k :: ks, acc =>
    if (head - k) ∈ hvs then sdNeededGo hvs limit head ks acc
    else
      let acc' := if head - k = 1 then 14 :: acc else acc ++ [head - k]
      if limit < acc'.length then acc'
      else sdNeededGo hvs limit head ks acc'

/-- The needed values for one straight head. -/
def sdNeeded (hvs : List Nat) (limit head : Nat) : List Nat :=
  sdNeededGo hvs limit head [0, 1, 2, 3, 4] []

/-- Accumulator of the straight-draw head loop.  The JS `comboKey` string
(`'MADE'` or the joined needed values) is represented by the needed-value
list itself ( `[]` for `'MADE'`; the join is injective on these lists). -/
structure SdState where
  used : List (List Nat) := []
  best : Option Nat := none
  combos : Nat := 0
  draws : List StraightDraw := []
deriving DecidableEq, Repr

/-- The head loop of the straight-draw evaluator, over heads `14 down to 5`. -/
def sdHeadLoop (hvs : List Nat) (limit : Nat) : List Nat → SdState → SdState
  | [], st => st
  | head :: hs, st =>
    let needed := sdNeeded hvs limit head
    if limit < needed.length then sdHeadLoop hvs limit hs st
    else if needed ∈ st.used then sdHeadLoop hvs limit hs st
    else
      let cardsToStraight := 5 - needed.length
      let st1 : SdState := { st with used := st.used ++ [needed] }
      let st2 : SdState :=
        match st1.best with
        | none => { st1 with best := some cardsToStraight, combos := 1 }
        | some b =>
          if b < cardsToStraight then { st1 with best := some cardsToStraight, combos := 1 }
          else if cardsToStraight = b then { st1 with combos := st1.combos + 1 }
          else st1
      sdHeadLoop hvs limit hs
        { st2 with draws := st2.draws ++
            [{ cardsToStraight := cardsToStraight, highValue := head, neededValues := needed }] }

/-- The comparator sorting the reported straight draws. -/
def cmpDraws (a b : StraightDraw) : Int :=
  if a.cardsToStraight > b.cardsToStraight then -1
  else if a.cardsToStraight < b.cardsToStraight then 1
  else if a.highValue > b.highValue then -1
  else if a.highValue < b.highValue then 1
  else 0

/-- `evaluators['straight-draw'].evaluate`. -/
def straightDrawEvaluate (ctx : EvalContext) : Option HandResult :=
  let hvs := sdHandValueSet ctx.cardGroupsBySize
  let minCardsToStraight := if 3 < ctx.cards.length - 2 then ctx.cards.length - 2 else 3
  let limit := 5 - minCardsToStraight
  let heads := (List.range 10).map (fun k => 14 - k)
  let st := sdHeadLoop hvs limit heads {}
  match st.best with
  | some b =>
    some { highestCardsToStraight := b,
           highestCardsToStraightCombinations := st.combos,
           draws := sortCmp cmpDraws st.draws }
  | none => none

/-! ### The evaluator table, result order, comparator and entry points -/

/-- `compareResults` of the straight-flush (and straight) evaluators. -/
def cmpResHighValue (a b : HandResult) : Except Err Int :=
  if a.highValue > b.highValue then .ok (-1)
  else if a.highValue < b.highValue then .ok 1
  else .ok 0

/-- `compareResults` shared shape: primary `value`, then kickers. -/
def cmpResValueKickers (a b : HandResult) : Except Err Int :=
  if a.value > b.value then .ok (-1)
  else if a.value < b.value then .ok 1
  else compareValueArrays a.kickerValues b.kickerValues

/-- `compareResults` of the full-house evaluator. -/
def cmpResFullHouse (a b : HandResult) : Except Err Int :=
  if a.threeValue > b.threeValue then .ok (-1)
  else if a.threeValue < b.threeValue then .ok 1
  else if a.twoValue > b.twoValue then .ok (-1)
  else if a.twoValue < b.twoValue then .ok 1
  else .ok 0

/-- `compareResults` of the flush and high-cards evaluators. -/
def cmpResKickers (a b : HandResult) : Except Err Int :=
  compareValueArrays a.kickerValues b.kickerValues

/-- `compareResults` of the two-pair evaluator. -/
def cmpResTwoPair (a b : HandResult) : Except Err Int :=
  match compareValueArrays a.values b.values with
  | .error e => .error e
  | .ok r => if r ≠ 0 then .ok r else compareValueArrays a.kickerValues b.kickerValues

/-- One entry of the `evaluators` table.  `compareResults` is `none` for
the draw evaluators, which define no comparator in JS. -/
structure Evaluator where
  minHandSize : Nat
  maxHandSize : Nat
  isResult : Bool
  evaluate : EvalContext → Option HandResult
  compareResults : Option (HandResult → HandResult → Except Err Int)

/-- The `evaluators` table keyed by evaluator type. -/
def evaluators (t : String) : Option Evaluator :=
  if t = "straight-flush" then some ⟨5, 7, true, straightFlushEvaluate, some cmpResHighValue⟩
  else if t = "four-of-a-kind" then some ⟨5, 7, true, fourOfAKindEvaluate, some cmpResValueKickers⟩
  else if t = "full-house" then some ⟨5, 7, true, fullHouseEvaluate, some cmpResFullHouse⟩
  else if t = "flush" then some ⟨5, 7, true, flushEvaluate, some cmpResKickers⟩
  else if t = "straight" then some ⟨5, 7, true, straightEvaluate, some cmpResHighValue⟩
  else if t = "three-of-a-kind" then some ⟨5, 7, true, threeOfAKindEvaluate, some cmpResValueKickers⟩
  else if t = "two-pair" then some ⟨5, 7, true, twoPairEvaluate, some cmpResTwoPair⟩
  else if t = "pair" then some ⟨5, 7, true, pairEvaluate, some cmpResValueKickers⟩
  else if t = "high-cards" then some ⟨5, 7, true, highCardsEvaluate, some cmpResKickers⟩
  else if t = "flush-draw" then some ⟨3, 6, false, flushDrawEvaluate, none⟩
  else if t = "straight-draw" then some ⟨3, 6, false, straightDrawEvaluate, none⟩
  else none

/-- `resultEvaluatorOrder` (hand-eval.js): the fixed strength ordering. -/
def resultEvaluatorOrder : List String :=
  ["straight-flush", "four-of-a-kind", "full-house", "flush", "straight",
   "three-of-a-kind", "two-pair", "pair", "high-cards"]

/-- `resultEvaluatorOrderMap`: type tag to position in the fixed order. -/
def resultEvaluatorOrderMap (t : String) : Option Nat :=
  resultEvaluatorOrder.findIdx? (fun s => s = t)

/-- `getEvaluationByType` (hand-eval.js). -/
def getEvaluationByType (hand : List Nat) (evaluatorType : String) :
    Except Err (Option HandResult) :=
  match getEvalContext hand with
  | .error e => .error e
  | .ok ctx =>
    match evaluators evaluatorType with
    | none => .error .invalidArgument
    | some ev =>
      if hand.length < ev.minHandSize ∨ ev.maxHandSize < hand.length then
        .error .invalidArgument
      else
        match ev.evaluate ctx with
        | some r => .ok (some { r with type := evaluatorType })
        | none => .ok none

/-- The evaluator loop of `getHandResult`: first success wins. -/
def getHandResultGo (ctx : EvalContext) : List String → Option HandResult
  | [] => none
  | t :: ts =>
    match evaluators t with
    | none => none   -- unreachable: every entry of the order exists in the table
    | some ev =>
      match ev.evaluate ctx with
      | some r => some { r with type := t }
      | none => getHandResultGo ctx ts

/-- `getHandResult` (hand-eval.js). -/
def getHandResult (hand : List Nat) : Except Err (Option HandResult) :=
  match getEvalContext hand with
  | .error e => .error e
  | .ok ctx => .ok (getHandResultGo ctx resultEvaluatorOrder)

/-- `compareHandResults` (hand-eval.js): category order first, then the
category-specific comparator.  An unrecognized type tag on either side
throws `INVALID_ARGUMENT`. -/
def compareHandResults (a b : HandResult) : Except Err Int :=
  match resultEvaluatorOrderMap a.type, resultEvaluatorOrderMap b.type with
  | some aIndex, some bIndex =>
    if aIndex < bIndex then .ok (-1)
    else if bIndex < aIndex then .ok 1
    else
      match evaluators a.type with
      | some ev =>
        match ev.compareResults with
        | some f => f a b
        | none => .error .internalError   -- unreachable: result types define comparators
      | none => .error .internalError     -- unreachable: order map keys exist in the table
  | _, _ => .error .invalidArgument

/-! ### `getFullEvaluation` -/

/-- The mutable `ret` of `getFullEvaluation`. -/
structure FullEvalState where
  result : Option HandResult := none
  evaluations : List HandResult := []
deriving DecidableEq, Repr

/-- `processEvaluators` of `getFullEvaluation`: runs the given types in
order, keeps the first successful evaluation, and lets a result-kind
evaluation upgrade `result` via `compareHandResults`. -/
def processEvaluators (ctx : EvalContext) (handLen : Nat) (st : FullEvalState) :
    List String → Except Err FullEvalState
  | [] => .ok st
  | t :: ts =>
    match evaluators t with
    | none => .error .invalidArgument
    | some ev =>
      if handLen < ev.minHandSize ∨ ev.maxHandSize < handLen then
        processEvaluators ctx handLen st ts
      else
        match ev.evaluate ctx with
        | none => processEvaluators ctx handLen st ts
        | some r0 =>
          let evaluation := { r0 with type := t }
          let st1 : FullEvalState := { st with evaluations := st.evaluations ++ [evaluation] }
          if ev.isResult then
            match st1.result with
            | some cur =>
              match compareHandResults evaluation cur with
              | .error e => .error e
              | .ok c => if c < 0 then .ok { st1 with result := some evaluation } else .ok st1
            | none => .ok { st1 with result := some evaluation }
          else .ok st1

/-- The (non-null) result of `getFullEvaluation`. -/
structure FullEvaluation where
  result : HandResult
  evaluations : List HandResult
deriving DecidableEq, Repr

/-- `getFullEvaluation` (hand-eval.js). -/
def getFullEvaluation (hand : List Nat) : Except Err FullEvaluation :=
  match getEvalContext hand with
  | .error e => .error e
  | .ok ctx =>
    if hand.length < 5 ∨ 7 < hand.length then .error .invalidArgument
    else
      match processEvaluators ctx hand.length {} ["straight-flush", "four-of-a-kind", "full-house"] with
      | .error e => .error e
      | .ok st1 =>
        let st4e : Except Err FullEvalState :=
          if st1.result = none then
            match processEvaluators ctx hand.length st1 ["three-of-a-kind", "two-pair", "pair", "high-cards"] with
            | .error e => .error e
            | .ok st2 =>
              match processEvaluators ctx hand.length st2 ["flush", "flush-draw"] with
              | .error e => .error e
              | .ok st3 => processEvaluators ctx hand.length st3 ["straight", "straight-draw"]
          else .ok st1
        match st4e with
        | .error e => .error e
        | .ok st4 =>
          match st4.result with
          | none => .error .internalError
          | some r => .ok { result := r, evaluations := st4.evaluations }

/-! ### random-utils.js / deck construction (card-utils.js)

The RNG is modelled as a stream `rng : Nat → Nat` of arbitrary naturals;
`randomInt(low, high)` at step `k` picks a value in `[low, high]`, which the
stream realises as `low + rng k % (high - low + 1)`.  The claims quantify
over every stream, so nothing about the distribution is assumed. -/

/-- One swap of `shuffleArray`: `tmp = arr[i]; arr[i] = arr[j]; arr[j] = tmp`. -/
def listSwap (d : α) (l : List α) (i j : Nat) : List α :=
  (l.set i (l.getD j d)).set j (l.getD i d)

/-- The Fisher-Yates loop of `shuffleArray` (random-utils.js):
`toSwap = rng.randomInt(i, arr.length - 1)`. -/
def shuffleGo (rng : Nat → Nat) (arr : List Nat) (i : Nat) : List Nat :=
  if h : i < arr.length then
    shuffleGo rng (listSwap 0 arr i (i + rng i % (arr.length - i))) (i + 1)
  else arr
termination_by arr.length - i
decreasing_by simp only [listSwap, List.length_set]; omega

/-- `shuffleArray` (random-utils.js). -/
def shuffleArray (arr : List Nat) (rng : Nat → Nat) : List Nat :=
  shuffleGo rng arr 0

/-- `getUnshuffledDeck` (card-utils.js): the identifiers 1..52 in order. -/
def getUnshuffledDeck : List Nat := List.range' 1 52

/-- `getShuffledDeck` (card-utils.js). -/
def getShuffledDeck (rng : Nat → Nat) : List Nat :=
  shuffleArray getUnshuffledDeck rng

/-- The comparator sorting the stack sections by starting index. -/
def cmpSectionIndex (a b : Nat × List Nat) : Int :=
  if a.1 < b.1 then -1 else if a.1 > b.1 then 1 else 0

/-- `getPartiallyStackedDeck` (card-utils.js).  `sections` maps starting
offsets to the card ids to force there (the JS object is embedded as an
association list; the single-card auto-wrap is inherent in the typing).
Throws when some card id is stacked twice; otherwise shuffles the
complement and splices each section in ascending offset order. -/
def getPartiallyStackedDeck (sections : List (Nat × List Nat)) (rng : Nat → Nat) :
    Except Err (List Nat) :=
  let allStacked := (sections.map Prod.snd).flatten
  if ¬ allStacked.Nodup then .error .invalidArgument
  else
    let sectionsArray := sortCmp cmpSectionIndex sections
    let deck0 := getUnshuffledDeck.filter (fun i => decide (i ∉ allStacked))
    let deck1 := shuffleArray deck0 rng
    .ok (sectionsArray.foldl (fun deck s => deck.take s.1 ++ s.2 ++ deck.drop s.1) deck1)

/-! ### Card strings (card-utils.js) -/

/-- `strValueMap`: lowercase value symbol to numeric value. -/
def strValueMap : List (String × Nat) :=
  [("2", 2), ("two", 2), ("3", 3), ("three", 3), ("4", 4), ("four", 4),
   ("5", 5), ("five", 5), ("6", 6), ("six", 6), ("7", 7), ("seven", 7),
   ("8", 8), ("eight", 8), ("9", 9), ("nine", 9), ("t", 10), ("ten", 10),
   ("j", 11), ("jack", 11), ("q", 12), ("queen", 12), ("k", 13), ("king", 13),
   ("a", 14), ("ace", 14)]

/-- `strSuitMap`: lowercase suit symbol to numeric suit. -/
def strSuitMap : List (String × Nat) :=
  [("c", 1), ("clubs", 1), ("club", 1), ("d", 2), ("diamonds", 2), ("diamond", 2),
   ("h", 3), ("hearts", 3), ("heart", 3), ("s", 4), ("spades", 4), ("spade", 4)]

/-- `getValueFromString` (card-utils.js). -/
def getValueFromString (s : String) : Except Err Nat :=
  match strValueMap.lookup s.toLower with
  | some v => .ok v
  | none => .error .invalidArgument

/-- `getSuitFromString` (card-utils.js). -/
def getSuitFromString (s : String) : Except Err Nat :=
  match strSuitMap.lookup s.toLower with
  | some v => .ok v
  | none => .error .invalidArgument

/-- `getCardComponentsFromString` (card-utils.js): two-character poker
notation, value symbol first, then suit symbol. -/
def getCardComponentsFromString (str : String) : Except Err Card :=
  match str.data with
  | [c1, c2] =>
    match getValueFromString (String.singleton c1) with
    | .error e => .error e
    | .ok value =>
      match getSuitFromString (String.singleton c2) with
      | .error e => .error e
      | .ok suit =>
        match getCardIdFromComponents value suit with
        | .error e => .error e
        | .ok cardId => .ok { cardId := cardId, value := value, suit := suit }
  | _ => .error .invalidArgument

/-! ### poker-table.js -/

/-- A key of the stacked-deck config: a player index or `'community'`. -/
inductive ConfigKey where
  | player (index : Nat)
  | community
deriving DecidableEq, Repr

/-- A card reference in a stacked-deck config: identifier, component
record, or shorthand string. -/
inductive CardRef where
  | byId (cardId : Nat)
  | byComponents (card : Card)
  | byString (str : String)
deriving DecidableEq, Repr

/-- The card-reference translation inside `createStackedDeckFunc`. -/
def cardRefToId (ref : CardRef) : Except Err Nat :=
  match ref with
  | .byId n => .ok n
  | .byComponents c => .ok c.cardId
  | .byString s =>
    match getCardComponentsFromString s with
    | .error e => .error e
    | .ok c => .ok c.cardId

/-- The key-translation loop of `createStackedDeckFunc` (poker-table.js):
`community` maps to offset `2 * numPlayers`; a player key maps to
`stackIndex = 2 * playerIndex`, and the code as written then rejects when
`stackIndex >= numPlayers` (it compares the doubled offset against the
player-count bound). -/
def stacksGo (numPlayers : Nat) : List (ConfigKey × List CardRef) →
    Except Err (List (Nat × List Nat))
  | [] => .ok []
  | (key, refs) :: rest =>
    let stackIndexE : Except Err Nat :=
      match key with
      | .community => .ok (2 * numPlayers)
      | .player i =>
        let stackIndex := 2 * i
        if numPlayers ≤ stackIndex then .error .invalidArgument
        else .ok stackIndex
    match stackIndexE with
    | .error e => .error e
    | .ok stackIndex =>
      match refs.mapM cardRefToId with
      | .error e => .error e
      | .ok cardIds =>
        match stacksGo numPlayers rest with
        | .error e => .error e
        | .ok restStacks => .ok ((stackIndex, cardIds) :: restStacks)

/-- `createStackedDeckFunc` (poker-table.js): translates the config to raw
deck offsets and returns the zero-argument deck builder (here a function of
the RNG stream, which in JS is the table's stateful `rng` advancing on each
call). -/
def createStackedDeckFunc (numPlayers : Nat) (config : List (ConfigKey × List CardRef)) :
    Except Err ((Nat → Nat) → Except Err (List Nat)) :=
  match stacksGo numPlayers config with
  | .error e => .error e
  | .ok rawStacks => .ok (fun rng => getPartiallyStackedDeck rawStacks rng)

/-! ### simulator.js

`Simulator.run` is a cooperative loop; rounds are abstracted by a type `ρ`
produced from the attempt counter (`_getDeck`/`playRound` advance the RNG
once per attempt), and the relevance predicate `_isPokerRoundRelevant` is a
function on rounds.  `pasync.whilst` is an unbounded loop; the embedding
gives it fuel that is provably sufficient (`trials + trialAttempts + 1`
outer cycles), returning `none` when the fuel runs out. -/

/-- The counters of `Simulator.run`. -/
structure SimState where
  trialCount : Nat := 0
  trialAttemptCount : Nat := 0
  finished : Bool := false
deriving DecidableEq, Repr

/-- Configuration of a run: trial target, attempt cap, batch size
(`roundsPerCycle`: 100, or 500 with `cpuHog`), round source and relevance
predicate. -/
structure SimCfg (ρ : Type) where
  trials : Nat
  trialAttempts : Nat
  roundsPerCycle : Nat
  nextRound : Nat → ρ
  isRelevant : ρ → Bool

/-- The synchronous inner loop of `Simulator.run` (one cycle of up to
`roundsPerCycle` rounds, stopping early once a counter reaches its target;
`cfg.trialAttempts ≠ 0` embeds the JS truthiness test on the cap). -/
def runCycle (cfg : SimCfg ρ) : Nat → SimState → SimState
  | 0, s => s
  | i + 1, s =>
    let attempts := s.trialAttemptCount + 1
    let round := cfg.nextRound attempts
    let s1 : SimState :=
      if cfg.isRelevant round then
        { s with trialCount := s.trialCount + 1, trialAttemptCount := attempts }
      else { s with trialAttemptCount := attempts }
    if cfg.trials ≤ s1.trialCount ∨ (cfg.trialAttempts ≠ 0 ∧ cfg.trialAttempts ≤ s1.trialAttemptCount) then
      { s1 with finished := true }
    else runCycle cfg i s1

/-- The `pasync.whilst` loop of `Simulator.run`, with fuel. -/
def runLoop (cfg : SimCfg ρ) : Nat → SimState → Option SimState
  | 0, s => if s.finished then some s else none
  | fuel + 1, s =>
    if s.finished then some s
    else runLoop cfg fuel (runCycle cfg cfg.roundsPerCycle s)

/-- `Simulator.run`: on completion reports `(totalTrials, totalTrialAttempts)`. -/
def simRun (cfg : SimCfg ρ) : Option (Nat × Nat) :=
  (runLoop cfg (cfg.trials + cfg.trialAttempts + 1) {}).map
    (fun s => (s.trialCount, s.trialAttemptCount))

/-! ## Claim C4: card id / components round trip -/

/-- C4: for every card identifier in 1..52, `getCardComponents` yields a
value in 2..14 (14 = Ace) and a suit in 1..4 with
`id = (suit-1)*13 + (value-1)`, and `getCardIdFromComponents` inverts it. -/
theorem c4_card_id_roundtrip (id : Nat) (h1 : 1 ≤ id) (h2 : id ≤ 52) :
    getCardComponents id = .ok (cardComponents id) ∧
    2 ≤ (cardComponents id).value ∧ (cardComponents id).value ≤ 14 ∧
    1 ≤ (cardComponents id).suit ∧ (cardComponents id).suit ≤ 4 ∧
    id = ((cardComponents id).suit - 1) * 13 + ((cardComponents id).value - 1) ∧
    getCardIdFromComponents (cardComponents id).value (cardComponents id).suit = .ok id := by
  interval_cases id <;> decide

/-- Witness for C4 at the concrete identifier 17 (Four of Diamonds). -/
theorem c4_witness :
    1 ≤ 17 ∧ 17 ≤ 52 ∧
    getCardIdFromComponents (cardComponents 17).value (cardComponents 17).suit = .ok 17 :=
  ⟨by decide, by decide, (c4_card_id_roundtrip 17 (by decide) (by decide)).2.2.2.2.2.2⟩

/-! ## Claim C6: stacked-deck factory rejects in-range player indices -/

/-- C6: `createStackedDeckFunc` at a 2-player table with a placement for
player index 1 (in range, since 0 ≤ 1 < 2) raises `INVALID_ARGUMENT`: the
code compares the doubled deck offset `2 * playerIndex` against
`numPlayers` even though its error message speaks of the player index
being out of bounds. -/
theorem c6_stacked_deck_player_index_bound :
    createStackedDeckFunc 2 [(ConfigKey.player 1, [CardRef.byId 5, CardRef.byId 9])] =
      .error .invalidArgument := rfl

/-! ## Claim C7: error kind for an unrecognized category tag -/

/-- C7 counterexample: `compareHandResults` on a result with the
unrecognized tag `"mystery"` raises the invalid-argument kind, not the
internal/invariant-violation kind the claim asserts. -/
theorem c7_counterexample :
    compareHandResults { type := "mystery" } { type := "pair" } = .error .invalidArgument ∧
    Err.invalidArgument ≠ Err.internalError :=
  ⟨rfl, by decide⟩

/-- Helper: a tag outside the fixed order has no index in the order map. -/
theorem ordMap_eq_none_of_not_mem (t : String) (ht : t ∉ resultEvaluatorOrder) :
    resultEvaluatorOrderMap t = none := by
  refine List.findIdx?_eq_none_iff.2 ?_
  intro x hx
  simp only [decide_eq_false_iff_not]
  intro hxt
  exact ht (hxt ▸ hx)

/-- C7 (amended): whenever `compareHandResults` is given a result whose
category tag is not one of the 9 recognized categories, the error it
raises is of the invalid-argument kind (the kind for bad input), not the
internal/invariant-violation kind. -/
theorem c7_amended_invalid_argument (a b : HandResult)
    (h : a.type ∉ resultEvaluatorOrder ∨ b.type ∉ resultEvaluatorOrder) :
    compareHandResults a b = .error .invalidArgument := by
  rcases h with h | h
  · cases hb : resultEvaluatorOrderMap b.type <;>
      simp [compareHandResults, ordMap_eq_none_of_not_mem _ h, hb]
  · cases ha : resultEvaluatorOrderMap a.type <;>
      simp [compareHandResults, ordMap_eq_none_of_not_mem _ h, ha]

/-- Witness for C7's amended theorem at a concrete unrecognized tag. -/
theorem c7_witness :
    (({ type := "mystery" } : HandResult).type ∉ resultEvaluatorOrder ∨
      (({ type := "pair" } : HandResult).type ∉ resultEvaluatorOrder)) ∧
    compareHandResults { type := "mystery" } { type := "pair" } = .error .invalidArgument :=
  ⟨Or.inl (by decide), c7_amended_invalid_argument _ _ (Or.inl (by decide))⟩

/-! ## Claim C1: category order decides `compareHandResults` -/

/-- C1: for valid results of differing categories, `compareHandResults`
returns -1 exactly when `a`'s category precedes `b`'s in the fixed ranking
and 1 otherwise, regardless of the numeric fields of either result. -/
theorem c1_category_order (a b : HandResult)
    (ha : a.type ∈ resultEvaluatorOrder) (hb : b.type ∈ resultEvaluatorOrder)
    (hne : a.type ≠ b.type) :
    compareHandResults a b =
      .ok (if (resultEvaluatorOrderMap a.type).getD 9 < (resultEvaluatorOrderMap b.type).getD 9
           then -1 else 1) := by
  simp only [resultEvaluatorOrder, List.mem_cons, List.not_mem_nil, or_false] at ha hb
  rcases ha with h | h | h | h | h | h | h | h | h <;>
    rcases hb with h' | h' | h' | h' | h' | h' | h' | h' | h' <;>
      first
        | exact absurd (h.trans h'.symm) hne
        | simp [compareHandResults, resultEvaluatorOrderMap, resultEvaluatorOrder, h, h']

/-- Witness for C1: a straight against a flush (flush ranks higher). -/
theorem c1_witness :
    compareHandResults { type := "straight", highValue := 14 } { type := "flush" } = .ok 1 := by
  have := c1_category_order { type := "straight", highValue := 14 } { type := "flush" }
    (by decide) (by decide) (by decide)
  simpa using this

/-! ## Claim C10: flush-draw `remainingCards` bounds -/

/-- C10: whenever the flush-draw detector succeeds on a hand of 3-6 cards,
the reported `remainingCards` is 0, 1 or 2 — never negative, because a
same-suit run longer than 5 is truncated to its 5 highest cards before
`remainingCards = 5 - runLength` is computed. -/
theorem c10_flush_draw_remaining (ctx : EvalContext) (r : HandResult)
    (h3 : 3 ≤ ctx.cards.length) (h6 : ctx.cards.length ≤ 6)
    (h : flushDrawEvaluate ctx = some r) :
    r.remainingCards = 0 ∨ r.remainingCards = 1 ∨ r.remainingCards = 2 := by
  have hm : 3 ≤ (if 3 < ctx.cards.length - 2 then ctx.cards.length - 2 else 3) := by
    split <;> omega
  simp only [flushDrawEvaluate] at h
  rcases hcs : ctx.cardsBySuit with _ | ⟨c, rest⟩ <;> rw [hcs] at h
  · simp at h
  · simp only [] at h
    set bf := fdBestFlush (fdLoop none c [] rest) with hbfdef
    by_cases hg : (if 3 < ctx.cards.length - 2 then ctx.cards.length - 2 else 3) ≤ bf.length
    · rw [if_pos hg] at h
      injection h with h
      rw [← h]
      by_cases h5 : 5 < bf.length
      · rw [if_pos h5]
        simp only [fdResult, List.length_take]
        omega
      · rw [if_neg h5]
        simp only [fdResult]
        omega
    · rw [if_neg hg] at h
      exact absurd h (by simp)

/-- The context for the C10 witness: a 6-card single-suit (spades) hand. -/
def sixSpadesCtx : EvalContext :=
  (getEvalContext [42, 43, 44, 45, 46, 47]).toOption.getD ⟨[], [], [], [], []⟩

/-- The flush-draw evaluation of the C10 witness hand. -/
def sixSpadesFlushDraw : HandResult :=
  (flushDrawEvaluate sixSpadesCtx).getD {}

/-- Witness for C10: the 6-card single-suit hand reports
`remainingCards = 0` (not -1), and the main theorem applies to it. -/
theorem c10_witness :
    3 ≤ sixSpadesCtx.cards.length ∧ sixSpadesCtx.cards.length ≤ 6 ∧
    flushDrawEvaluate sixSpadesCtx = some sixSpadesFlushDraw ∧
    sixSpadesFlushDraw.remainingCards = 0 ∧
    (sixSpadesFlushDraw.remainingCards = 0 ∨ sixSpadesFlushDraw.remainingCards = 1 ∨
      sixSpadesFlushDraw.remainingCards = 2) :=
  ⟨by decide, by decide, by decide, by decide,
   c10_flush_draw_remaining sixSpadesCtx sixSpadesFlushDraw (by decide) (by decide) (by decide)⟩

/-! ## Claim C8: simulator counters -/

/-- A finished state passes unchanged through the outer loop. -/
theorem runLoop_finished (cfg : SimCfg ρ) (fuel : Nat) (s : SimState)
    (h : s.finished = true) : runLoop cfg fuel s = some s := by
  cases fuel <;> simp [runLoop, h]

/-- One cycle under an always-rejecting relevance predicate: the trial
counter stays 0 and the attempt counter either reaches the cap exactly
(finishing) or advances by the batch size. -/
theorem runCycle_reject (cfg : SimCfg ρ) (hrel : ∀ x, cfg.isRelevant x = false)
    (htr : 1 ≤ cfg.trials) :
    ∀ i a, a < cfg.trialAttempts →
      (runCycle cfg i ⟨0, a, false⟩ = ⟨0, cfg.trialAttempts, true⟩ ∧
        cfg.trialAttempts ≤ a + i) ∨
      (runCycle cfg i ⟨0, a, false⟩ = ⟨0, a + i, false⟩ ∧ a + i < cfg.trialAttempts) := by
  intro i
  induction i with
  | zero => intro a ha; right; exact ⟨rfl, by omega⟩
  | succ i ih =>
    intro a ha
    have h1 : cfg.isRelevant (cfg.nextRound (a + 1)) = false := hrel _
    have hred : runCycle cfg (i + 1) ⟨0, a, false⟩ =
        if cfg.trials ≤ 0 ∨ (cfg.trialAttempts ≠ 0 ∧ cfg.trialAttempts ≤ a + 1)
        then ⟨0, a + 1, true⟩ else runCycle cfg i ⟨0, a + 1, false⟩ := by
      simp [runCycle, h1]
    rw [hred]
    by_cases hdone : cfg.trialAttempts ≤ a + 1
    · rw [if_pos (Or.inr ⟨by omega, hdone⟩)]
      left
      have he : a + 1 = cfg.trialAttempts := by omega
      exact ⟨by rw [he], by omega⟩
    · rw [if_neg (by push_neg; exact ⟨by omega, fun _ => by omega⟩)]
      rcases ih (a + 1) (by omega) with ⟨h1', h2'⟩ | ⟨h1', h2'⟩
      · left; exact ⟨h1', by omega⟩
      · right
        refine ⟨?_, by omega⟩
        rw [h1']
        congr 1
        omega

/-- The outer loop under an always-rejecting relevance predicate
terminates with `(0, trialAttempts)` given enough fuel. -/
theorem runLoop_reject (cfg : SimCfg ρ) (hrel : ∀ x, cfg.isRelevant x = false)
    (htr : 1 ≤ cfg.trials) (hrpc : 1 ≤ cfg.roundsPerCycle) :
    ∀ fuel a, a < cfg.trialAttempts → cfg.trialAttempts - a ≤ fuel →
      runLoop cfg fuel ⟨0, a, false⟩ = some ⟨0, cfg.trialAttempts, true⟩ := by
  intro fuel
  induction fuel with
  | zero => intro a ha hf; omega
  | succ fuel ih =>
    intro a ha hf
    rw [runLoop]
    simp only [ite_false]
    rcases runCycle_reject cfg hrel htr cfg.roundsPerCycle a ha with ⟨h1, _⟩ | ⟨h1, h2⟩
    · rw [h1]
      exact runLoop_finished cfg fuel _ rfl
    · rw [h1]
      exact ih (a + cfg.roundsPerCycle) h2 (by omega)

/-- C8: with an always-accepting relevance predicate, a run with trial
target 100 and attempt cap 100 completes with `totalTrials = 100` and
`totalTrialAttempts = 100`; with an always-rejecting relevance predicate
and attempt cap 50, a run completes with `totalTrials = 0` and
`totalTrialAttempts = 50` (any positive trial target, either batch size). -/
theorem c8_simulator_counters {ρ ρ' : Type}
    (next : Nat → ρ) (next' : Nat → ρ') (rel : ρ → Bool) (rel' : ρ' → Bool)
    (rpc rpc' trials' : Nat)
    (hrel : ∀ x, rel x = true) (hrel' : ∀ x, rel' x = false)
    (hrpc : rpc = 100 ∨ rpc = 500) (hrpc' : 1 ≤ rpc') (htr : 1 ≤ trials') :
    simRun { trials := 100, trialAttempts := 100, roundsPerCycle := rpc,
             nextRound := next, isRelevant := rel } = some (100, 100) ∧
    simRun { trials := trials', trialAttempts := 50, roundsPerCycle := rpc',
             nextRound := next', isRelevant := rel' } = some (0, 50) := by
  constructor
  · have hfun : rel = fun _ => true := funext hrel
    subst hfun
    rcases hrpc with h | h <;> subst h <;> rfl
  · have hloop := runLoop_reject
      { trials := trials', trialAttempts := 50, roundsPerCycle := rpc',
        nextRound := next', isRelevant := rel' }
      hrel' htr hrpc' (trials' + 50 + 1) 0
      (show (0:Nat) < 50 by omega) (show 50 - 0 ≤ trials' + 50 + 1 by omega)
    have hstart : simRun
        { trials := trials', trialAttempts := 50, roundsPerCycle := rpc',
          nextRound := next', isRelevant := rel' } =
        (runLoop { trials := trials', trialAttempts := 50, roundsPerCycle := rpc',
                   nextRound := next', isRelevant := rel' }
          (trials' + 50 + 1) ⟨0, 0, false⟩).map
          (fun s => (s.trialCount, s.trialAttemptCount)) := rfl
    rw [hstart, hloop]
    rfl

/-- Witness for C8 at concrete predicates and batch sizes. -/
theorem c8_witness :
    simRun { trials := 100, trialAttempts := 100, roundsPerCycle := 100,
             nextRound := fun n => n, isRelevant := fun _ => true } = some (100, 100) ∧
    simRun { trials := 100, trialAttempts := 50, roundsPerCycle := 100,
             nextRound := fun n => n, isRelevant := fun _ => false } = some (0, 50) :=
  c8_simulator_counters (fun n => n) (fun n => n) (fun _ => true) (fun _ => false)
    100 100 100 (fun _ => rfl) (fun _ => rfl) (Or.inl rfl) (by decide) (by decide)

/-! ## Claim C5: partially stacked deck -/

/-- Pulling the `j`-th element of a list to the front while writing `x`
into its old slot is a permutation of consing `x`. -/
theorem getD_cons_set_perm (d : α) :
    ∀ (xs : List α) (j : Nat), j < xs.length → ∀ x : α,
      (xs.getD j d) :: xs.set j x ~ x :: xs := by
  intro xs
  induction xs with
  | nil => intro j hj; simp at hj
  | cons y ys ih =>
    intro j hj x
    cases j with
    | zero => simpa using List.Perm.swap x y ys
    | succ k =>
      have hk : k < ys.length := by simpa using hj
      simp only [List.getD_cons_succ, List.set_cons_succ]
      calc (ys.getD k d) :: y :: ys.set k x
          ~ y :: (ys.getD k d) :: ys.set k x := List.Perm.swap _ _ _
        _ ~ y :: x :: ys := (ih k hk x).cons y
        _ ~ x :: y :: ys := List.Perm.swap _ _ _

/-- A swap is a permutation. -/
theorem listSwap_perm (d : α) :
    ∀ (l : List α) (i j : Nat), i ≤ j → j < l.length → listSwap d l i j ~ l := by
  intro l
  induction l with
  | nil => intro i j hij hj; simp at hj
  | cons x xs ih =>
    intro i j hij hj
    cases i with
    | zero =>
      cases j with
      | zero => simp [listSwap]
      | succ k =>
        have hk : k < xs.length := by simpa using hj
        simpa [listSwap] using getD_cons_set_perm d xs k hk x
    | succ i' =>
      cases j with
      | zero => omega
      | succ j' =>
        have : listSwap d (x :: xs) (i' + 1) (j' + 1) = x :: listSwap d xs i' j' := by
          simp [listSwap]
        rw [this]
        exact (ih i' j' (by omega) (by simpa using hj)).cons x

/-- The Fisher-Yates loop permutes its input, whatever the rng stream. -/
theorem shuffleGo_perm (rng : Nat → Nat) :
    ∀ (n : Nat) (arr : List Nat) (i : Nat), arr.length - i ≤ n →
      shuffleGo rng arr i ~ arr := by
  intro n
  induction n with
  | zero =>
    intro arr i h
    rw [shuffleGo, dif_neg (by omega)]
  | succ n ih =>
    intro arr i h
    rw [shuffleGo]
    by_cases hi : i < arr.length
    · rw [dif_pos hi]
      have hj : i + rng i % (arr.length - i) < arr.length := by
        have := Nat.mod_lt (rng i) (y := arr.length - i) (by omega)
        omega
      have hswap : listSwap 0 arr i (i + rng i % (arr.length - i)) ~ arr :=
        listSwap_perm 0 arr i _ (Nat.le_add_right _ _) hj
      have hlen : (listSwap 0 arr i (i + rng i % (arr.length - i))).length = arr.length := by
        simp [listSwap]
      exact (ih _ (i + 1) (by omega)).trans hswap
    · rw [dif_neg hi]

/-- `shuffleArray` returns a permutation of its input for every rng. -/
theorem shuffleArray_perm (arr : List Nat) (rng : Nat → Nat) :
    shuffleArray arr rng ~ arr :=
  shuffleGo_perm rng arr.length arr 0 (by omega)

/-- C5: stacking `[a,b]` at offset 0 and `[c,d,e]` at offset
`2*numPlayers` yields, for every rng, a 52-card permutation of 1..52 with
`a,b` at offsets 0,1, `c,d,e` at the three offsets from `2*numPlayers`,
and the remaining 47 positions holding exactly the 47 non-stacked
identifiers (a permutation `w` of the complement, split around the
community slice). -/
theorem c5_partially_stacked_deck (rng : Nat → Nat) (numPlayers : Nat)
    (a b c d e : Nat)
    (hN1 : 1 ≤ numPlayers) (hN2 : numPlayers ≤ 10)
    (hmem : ∀ x ∈ [a, b, c, d, e], 1 ≤ x ∧ x ≤ 52)
    (hnd : List.Nodup [a, b, c, d, e]) :
    ∃ (w dk : List Nat),
      w ~ getUnshuffledDeck.filter (fun i => decide (i ∉ [a, b, c, d, e])) ∧
      dk = a :: b :: (w.take (2 * numPlayers - 2) ++ c :: d :: e :: w.drop (2 * numPlayers - 2)) ∧
      getPartiallyStackedDeck [(0, [a, b]), (2 * numPlayers, [c, d, e])] rng = .ok dk ∧
      (w.take (2 * numPlayers - 2)).length = 2 * numPlayers - 2 ∧
      dk.length = 52 ∧ dk ~ getUnshuffledDeck ∧
      dk[0]? = some a ∧ dk[1]? = some b ∧
      dk[2 * numPlayers]? = some c ∧ dk[2 * numPlayers + 1]? = some d ∧
      dk[2 * numPlayers + 2]? = some e := by
  obtain ⟨m, hm⟩ : ∃ m, 2 * numPlayers = m + 2 := ⟨2 * numPlayers - 2, by omega⟩
  set stacked := [a, b, c, d, e] with hstacked
  set deck0 := getUnshuffledDeck.filter (fun i => decide (i ∉ stacked)) with hdeck0
  set w := shuffleArray deck0 rng with hw
  have hwperm : w ~ deck0 := shuffleArray_perm deck0 rng
  -- the filtered-in part of the unshuffled deck is a permutation of `stacked`
  have hnodup52 : getUnshuffledDeck.Nodup := List.nodup_range' 1 52
  have hin : getUnshuffledDeck.filter (fun i => decide (i ∈ stacked)) ~ stacked := by
    refine (List.perm_ext_iff_of_nodup (hnodup52.filter _) hnd).2 ?_
    intro x
    simp only [List.mem_filter, decide_eq_true_eq]
    constructor
    · rintro ⟨-, hx⟩; exact hx
    · intro hx
      refine ⟨?_, hx⟩
      have := hmem x hx
      simp only [getUnshuffledDeck, List.mem_range'_1]
      omega
  have hsplit : getUnshuffledDeck.filter (fun i => decide (i ∈ stacked)) ++ deck0 ~
      getUnshuffledDeck := by
    have := List.filter_append_perm (fun i => decide (i ∈ stacked)) getUnshuffledDeck
    have hcong : getUnshuffledDeck.filter (fun x => !decide (x ∈ stacked)) = deck0 := by
      refine List.filter_congr ?_
      intro x _
      simp
    rw [← hcong]
    exact this
  -- lengths
  have hlen52 : getUnshuffledDeck.length = 52 := by simp [getUnshuffledDeck]
  have hlenIn : (getUnshuffledDeck.filter (fun i => decide (i ∈ stacked))).length = 5 :=
    hin.length_eq
  have hlen0 : deck0.length = 47 := by
    have := hsplit.length_eq
    simp only [List.length_append, hlenIn, hlen52] at this
    omega
  have hlenw : w.length = 47 := hwperm.length_eq.trans hlen0
  have htake : (w.take m).length = m := by
    simp only [List.length_take]
    omega
  -- evaluate the function
  have hnd' : ((([(0, [a, b]), (2 * numPlayers, [c, d, e])] :
      List (Nat × List Nat)).map Prod.snd).flatten).Nodup := hnd
  have hsorted : sortCmp cmpSectionIndex [(0, [a, b]), (2 * numPlayers, [c, d, e])] =
      [(0, [a, b]), (2 * numPlayers, [c, d, e])] := by
    have h0 : cmpSectionIndex (0, [a, b]) (2 * numPlayers, [c, d, e]) ≤ 0 := by
      simp only [cmpSectionIndex]
      rw [if_pos (by omega)]
      omega
    simp [sortCmp, insertCmp, h0]
  have heval : getPartiallyStackedDeck [(0, [a, b]), (2 * numPlayers, [c, d, e])] rng =
      .ok (a :: b :: (w.take m ++ c :: d :: e :: w.drop m)) := by
    simp only [getPartiallyStackedDeck]
    rw [if_neg (not_not_intro hnd')]
    rw [hsorted]
    simp only [List.foldl_cons, List.foldl_nil, List.take_zero, List.drop_zero,
      List.nil_append]
    rw [hm]
    simp only [List.cons_append, List.nil_append, List.take_succ_cons,
      List.drop_succ_cons, List.append_assoc]
    rw [hw, hdeck0, hstacked]
    rfl
  have hm2 : 2 * numPlayers - 2 = m := by omega
  have hdkperm : a :: b :: (w.take m ++ c :: d :: e :: w.drop m) ~ getUnshuffledDeck := by
    have h1 : a :: b :: (w.take m ++ c :: d :: e :: w.drop m) ~ stacked ++ w := by
      have hmid : w.take m ++ ([c, d, e] ++ w.drop m) ~ [c, d, e] ++ (w.take m ++ w.drop m) := by
        calc w.take m ++ ([c, d, e] ++ w.drop m)
            = (w.take m ++ [c, d, e]) ++ w.drop m := by rw [List.append_assoc]
          _ ~ ([c, d, e] ++ w.take m) ++ w.drop m :=
              (List.perm_append_comm).append_right _
          _ = [c, d, e] ++ (w.take m ++ w.drop m) := by rw [List.append_assoc]
      have hmid' : w.take m ++ c :: d :: e :: w.drop m ~ c :: d :: e :: w := by
        simpa [List.take_append_drop] using hmid
      exact (hmid'.cons b).cons a
    calc a :: b :: (w.take m ++ c :: d :: e :: w.drop m)
        ~ stacked ++ w := h1
      _ ~ stacked ++ deck0 := List.Perm.append_left stacked hwperm
      _ ~ getUnshuffledDeck.filter (fun i => decide (i ∈ stacked)) ++ deck0 :=
          (hin.symm).append_right deck0
      _ ~ getUnshuffledDeck := hsplit
  have hpos : ∀ k, (w.take m ++ c :: d :: e :: w.drop m)[m + k]? =
      (c :: d :: e :: w.drop m)[k]? := by
    intro k
    rw [List.getElem?_append_right (by rw [htake]; omega)]
    congr 1
    rw [htake]
    omega
  refine ⟨w, _, hwperm, rfl, ?_, ?_, ?_, ?_, ?_, ?_, ?_, ?_, ?_⟩
  · rw [hm2]; exact heval
  · rw [hm2]; exact htake
  · rw [hm2]
    have := hdkperm.length_eq
    rw [this, hlen52]
  · rw [hm2]; exact hdkperm
  · simp
  · simp
  · rw [hm2, hm]
    simp only [List.getElem?_cons_succ]
    simpa using hpos 0
  · rw [hm2, hm]
    have : m + 2 + 1 = (m + 1) + 2 := by omega
    rw [this]
    simp only [List.getElem?_cons_succ]
    simpa using hpos 1
  · rw [hm2, hm]
    have : m + 2 + 2 = (m + 2) + 2 := by omega
    rw [this]
    simp only [List.getElem?_cons_succ]
    simpa using hpos 2

/-! ## Shared facts about cards, contexts and the sorts (for C2 and C9) -/

/-- `cmpCardsByValue` is a total preorder. -/
theorem cmpCardsByValue_total (a b : Card) :
    cmpCardsByValue a b ≤ 0 ∨ cmpCardsByValue b a ≤ 0 := by
  simp only [cmpCardsByValue]
  split_ifs <;> omega

/-- `cmpCardsByValue` is transitive. -/
theorem cmpCardsByValue_trans (a b c : Card) :
    cmpCardsByValue a b ≤ 0 → cmpCardsByValue b c ≤ 0 → cmpCardsByValue a c ≤ 0 := by
  simp only [cmpCardsByValue]
  split_ifs <;> omega

/-- Cards unordered by `cmpCardsByValue` in both directions share components. -/
theorem cmpCardsByValue_eq (a b : Card) :
    cmpCardsByValue a b ≤ 0 → cmpCardsByValue b a ≤ 0 →
    a.value = b.value ∧ a.suit = b.suit := by
  simp only [cmpCardsByValue]
  split_ifs <;> omega

/-- `cmpCardsBySuit` is a total preorder. -/
theorem cmpCardsBySuit_total (a b : Card) :
    cmpCardsBySuit a b ≤ 0 ∨ cmpCardsBySuit b a ≤ 0 := by
  simp only [cmpCardsBySuit]
  split_ifs <;> omega

/-- `cmpCardsBySuit` is transitive. -/
theorem cmpCardsBySuit_trans (a b c : Card) :
    cmpCardsBySuit a b ≤ 0 → cmpCardsBySuit b c ≤ 0 → cmpCardsBySuit a c ≤ 0 := by
  simp only [cmpCardsBySuit]
  split_ifs <;> omega

/-- Cards unordered by `cmpCardsBySuit` in both directions share components. -/
theorem cmpCardsBySuit_eq (a b : Card) :
    cmpCardsBySuit a b ≤ 0 → cmpCardsBySuit b a ≤ 0 →
    a.value = b.value ∧ a.suit = b.suit := by
  simp only [cmpCardsBySuit]
  split_ifs <;> omega

/-- The identifier of a valid card is recovered from its components
(`identifier = (suit-1)*13 + (value-1)`). -/
theorem cardComponents_recover (id : Nat) (h1 : 1 ≤ id) (h2 : id ≤ 52) :
    ((cardComponents id).suit - 1) * 13 + ((cardComponents id).value - 1) = id := by
  interval_cases id <;> decide

/-- Valid card components determine the identifier. -/
theorem cardComponents_inj {i j : Nat} (hi1 : 1 ≤ i) (hi2 : i ≤ 52)
    (hj1 : 1 ≤ j) (hj2 : j ≤ 52)
    (hv : (cardComponents i).value = (cardComponents j).value)
    (hs : (cardComponents i).suit = (cardComponents j).suit) : i = j := by
  have := cardComponents_recover i hi1 hi2
  have := cardComponents_recover j hj1 hj2
  rw [hv, hs] at *
  omega

/-- The grouping walk flattens back to its input. -/
theorem groupRunsGo_flatten :
    ∀ (rest : List Card) (hd : Card) (tl : List Card),
      (groupRunsGo hd tl rest).flatten = (hd :: tl) ++ rest := by
  intro rest
  induction rest with
  | nil => intro hd tl; simp [groupRunsGo]
  | cons c rest ih =>
    intro hd tl
    rw [groupRunsGo]
    split
    · rw [ih]
      simp
    · simp only [List.flatten_cons, ih]
      simp

/-- `groupRuns` flattens back to its input. -/
theorem groupRuns_flatten (l : List Card) : (groupRuns l).flatten = l := by
  cases l with
  | nil => rfl
  | cons c rest => simpa using groupRunsGo_flatten rest c []

/-- `getCardComponents` succeeds on a valid id. -/
theorem getCardComponents_ok (id : Nat) (h1 : 1 ≤ id) (h2 : id ≤ 52) :
    getCardComponents id = .ok (cardComponents id) := by
  simp only [getCardComponents, validateCard]
  rw [if_neg (by omega)]
  rfl

/-- `getCardComponentsArray` succeeds on valid ids and maps componentwise. -/
theorem getCardComponentsArray_ok (l : List Nat) (hvalid : ∀ id ∈ l, 1 ≤ id ∧ id ≤ 52) :
    getCardComponentsArray l = .ok (l.map cardComponents) := by
  induction l with
  | nil => rfl
  | cons x xs ih =>
    have hx := hvalid x (by simp)
    have hxs : ∀ id ∈ xs, 1 ≤ id ∧ id ≤ 52 := fun id hid => hvalid id (by simp [hid])
    simp only [getCardComponentsArray] at ih ⊢
    rw [List.mapM_cons, getCardComponents_ok x hx.1 hx.2, ih hxs]
    rfl

/-- Mapping components then ids is the identity on id lists. -/
theorem map_cardId_map_cardComponents (l : List Nat) :
    (l.map cardComponents).map Card.cardId = l := by
  rw [List.map_map]
  have hcomp : (Card.cardId ∘ cardComponents) = id := funext fun x => rfl
  rw [hcomp, List.map_id]

/-- No adjacent duplicates in a list whose ids are distinct. -/
theorem hasAdjacentDup_eq_false (l : List Card) (h : (l.map Card.cardId).Nodup) :
    hasAdjacentDup l = false := by
  induction l with
  | nil => rfl
  | cons a t ih =>
    cases t with
    | nil => rfl
    | cons b t' =>
      simp only [List.map_cons, List.nodup_cons, List.mem_cons, List.map_cons] at h
      simp only [hasAdjacentDup, Bool.or_eq_false_iff]
      constructor
      · simp only [decide_eq_false_iff_not]
        intro hab
        exact h.1 (Or.inl hab)
      · exact ih (by simp only [List.map_cons, List.nodup_cons]; exact h.2)

/-- `getEvalContext` succeeds on a valid 5-7 card unique hand and returns
the three precomputed sorts. -/
theorem getEvalContext_ok (hand : List Nat)
    (hvalid : ∀ id ∈ hand, 1 ≤ id ∧ id ≤ 52) (hnd : hand.Nodup)
    (h5 : 5 ≤ hand.length) (h7 : hand.length ≤ 7) :
    getEvalContext hand = .ok
      { hand := hand,
        cards := hand.map cardComponents,
        cardsByValue := sortCmp cmpCardsByValue (hand.map cardComponents),
        cardGroupsBySize := sortCmp cmpGroupsBySize
          (groupRuns (sortCmp cmpCardsByValue (hand.map cardComponents))),
        cardsBySuit := sortCmp cmpCardsBySuit (hand.map cardComponents) } := by
  have hids : ((hand.map cardComponents).map Card.cardId).Nodup := by
    rw [map_cardId_map_cardComponents]; exact hnd
  rw [getEvalContext]
  rw [if_neg (by omega), if_neg (by omega)]
  rw [getCardComponentsArray_ok hand hvalid]
  dsimp only
  rw [if_neg ?hdup]
  case hdup =>
    rw [hasAdjacentDup_eq_false]
    · simp
    · have hperm : (sortCmp cmpCardsBySuit (hand.map cardComponents)).map Card.cardId ~
          (hand.map cardComponents).map Card.cardId :=
        (sortCmp_perm cmpCardsBySuit _).map Card.cardId
      exact hperm.nodup_iff.2 hids

/-- A context produced by `getEvalContext` on a valid unique hand: ids are
distinct, each sort is a permutation of the card list, the groups flatten
to a permutation of the card list. -/
theorem ctx_facts (hand : List Nat) (ctx : EvalContext)
    (hvalid : ∀ id ∈ hand, 1 ≤ id ∧ id ≤ 52) (hnd : hand.Nodup)
    (h5 : 5 ≤ hand.length) (h7 : hand.length ≤ 7)
    (h : getEvalContext hand = .ok ctx) :
    ctx.cards = hand.map cardComponents ∧
    (ctx.cards.map Card.cardId).Nodup ∧
    ctx.cardsByValue ~ ctx.cards ∧
    ctx.cardsBySuit ~ ctx.cards ∧
    ctx.cardGroupsBySize.flatten ~ ctx.cards ∧
    5 ≤ ctx.cards.length := by
  rw [getEvalContext_ok hand hvalid hnd h5 h7] at h
  injection h with h
  subst h
  dsimp only
  refine ⟨rfl, ?_, sortCmp_perm _ _, sortCmp_perm _ _, ?_, ?_⟩
  · rw [map_cardId_map_cardComponents]; exact hnd
  · calc (sortCmp cmpGroupsBySize
          (groupRuns (sortCmp cmpCardsByValue (hand.map cardComponents)))).flatten
        ~ (groupRuns (sortCmp cmpCardsByValue (hand.map cardComponents))).flatten :=
          (sortCmp_perm _ _).flatten
      _ = sortCmp cmpCardsByValue (hand.map cardComponents) := groupRuns_flatten _
      _ ~ hand.map cardComponents := sortCmp_perm _ _
  · have := (sortCmp_perm cmpCardsByValue (hand.map cardComponents)).length_eq
    simp [List.length_map, h5]

/-! ### Kicker facts -/

/-- Every kicker is a hand card outside the result group. -/
theorem getKickers_mem (cards rc : List Card) :
    ∀ k ∈ getKickers cards rc, k ∈ cards ∧ k.cardId ∉ rc.map Card.cardId := by
  intro k hk
  have hk' := (sortCmp_perm cmpCardsByValue _).mem_iff.1 hk
  simpa using List.mem_filter.1 hk'

/-- Kickers keep distinct ids. -/
theorem getKickers_ids_nodup (cards rc : List Card)
    (h : (cards.map Card.cardId).Nodup) :
    ((getKickers cards rc).map Card.cardId).Nodup := by
  have hperm : (getKickers cards rc).map Card.cardId ~
      (cards.filter (fun c => decide (c.cardId ∉ rc.map Card.cardId))).map Card.cardId :=
    (sortCmp_perm cmpCardsByValue _).map Card.cardId
  refine hperm.nodup_iff.2 ?_
  exact ((List.filter_sublist cards).map Card.cardId).nodup h

/-- The hand cards carrying an id used by the result group are exactly the
result group (given distinct ids and the group drawn from the hand). -/
theorem filter_mem_ids_perm (cards rc : List Card)
    (hIds : (cards.map Card.cardId).Nodup)
    (hsub : ∀ c ∈ rc, c ∈ cards)
    (hrcIds : (rc.map Card.cardId).Nodup) :
    cards.filter (fun c => decide (c.cardId ∈ rc.map Card.cardId)) ~ rc := by
  have hndc : cards.Nodup := hIds.of_map
  have hndr : rc.Nodup := hrcIds.of_map
  refine (List.perm_ext_iff_of_nodup (hndc.filter _) hndr).2 ?_
  intro x
  rw [List.mem_filter]
  constructor
  · rintro ⟨hxc, hxid⟩
    simp only [decide_eq_true_eq] at hxid
    obtain ⟨w, hw, hwid⟩ := List.mem_map.1 hxid
    have hx_eq : x = w :=
      List.inj_on_of_nodup_map hIds hxc (hsub w hw) hwid.symm
    rw [hx_eq]
    exact hw
  · intro hx
    refine ⟨hsub x hx, ?_⟩
    simp only [decide_eq_true_eq]
    exact List.mem_map.2 ⟨x, hx, rfl⟩

/-- The number of kickers: the hand minus the result group. -/
theorem getKickers_length (cards rc : List Card)
    (hIds : (cards.map Card.cardId).Nodup)
    (hsub : ∀ c ∈ rc, c ∈ cards)
    (hrcIds : (rc.map Card.cardId).Nodup) :
    (getKickers cards rc).length = cards.length - rc.length := by
  have h1 : (getKickers cards rc).length =
      (cards.filter (fun c => decide (c.cardId ∉ rc.map Card.cardId))).length :=
    (sortCmp_perm _ _).length_eq
  have hsplit := List.filter_append_perm
    (fun c => decide (c.cardId ∈ rc.map Card.cardId)) cards
  have hout : cards.filter (fun x => !decide (x.cardId ∈ rc.map Card.cardId)) =
      cards.filter (fun c => decide (c.cardId ∉ rc.map Card.cardId)) := by
    refine List.filter_congr ?_
    intro x _
    exact decide_not.symm
  rw [hout] at hsplit
  have hin := (filter_mem_ids_perm cards rc hIds hsub hrcIds).length_eq
  have hlen := hsplit.length_eq
  simp only [List.length_append] at hlen
  omega

/-- A result group together with its first `j` kickers: 5 cards from the
hand with distinct ids. -/
theorem rc_kickers_ok (ctx : EvalContext)
    (hIds : (ctx.cards.map Card.cardId).Nodup)
    (hlen : 5 ≤ ctx.cards.length)
    (rc : List Card) (j : Nat)
    (hsub : ∀ c ∈ rc, c ∈ ctx.cards)
    (hrcIds : (rc.map Card.cardId).Nodup)
    (hkj : rc.length + j = 5) :
    (rc ++ (getKickers ctx.cards rc).take j).length = 5 ∧
    ((rc ++ (getKickers ctx.cards rc).take j).map Card.cardId).Nodup ∧
    ∀ c ∈ rc ++ (getKickers ctx.cards rc).take j, c ∈ ctx.cards := by
  have hklen : (getKickers ctx.cards rc).length = ctx.cards.length - rc.length :=
    getKickers_length ctx.cards rc hIds hsub hrcIds
  have hjtake : ((getKickers ctx.cards rc).take j).length = j := by
    simp only [List.length_take]
    omega
  refine ⟨by simp [hjtake]; omega, ?_, ?_⟩
  · rw [List.map_append, List.nodup_append]
    refine ⟨hrcIds, ?_, ?_⟩
    · exact ((List.take_sublist j _).map Card.cardId).nodup
        (getKickers_ids_nodup ctx.cards rc hIds)
    · intro a ha hb
      obtain ⟨k, hk, rfl⟩ := List.mem_map.1 hb
      have hk' : k ∈ getKickers ctx.cards rc := List.take_subset j _ hk
      exact (getKickers_mem ctx.cards rc k hk').2 ha
  · intro c hc
    rcases List.mem_append.1 hc with hc | hc
    · exact hsub c hc
    · exact (getKickers_mem ctx.cards rc c (List.take_subset j _ hc)).1

/-- Cards of one value group: drawn from the hand, ids distinct. -/
theorem group_facts (ctx : EvalContext)
    (hIds : (ctx.cards.map Card.cardId).Nodup)
    (hgr : ctx.cardGroupsBySize.flatten ~ ctx.cards)
    (g : List Card) (hg : g ∈ ctx.cardGroupsBySize) :
    (∀ c ∈ g, c ∈ ctx.cards) ∧ (g.map Card.cardId).Nodup := by
  have hsl : g <+ ctx.cardGroupsBySize.flatten := List.sublist_flatten_of_mem hg
  constructor
  · intro c hc
    exact hgr.subset (hsl.subset hc)
  · exact (hsl.map _).nodup ((hgr.map _).nodup_iff.2 hIds)

/-- Cards of the two leading value groups: drawn from the hand, ids
distinct across both. -/
theorem two_groups_facts (ctx : EvalContext)
    (hIds : (ctx.cards.map Card.cardId).Nodup)
    (hgr : ctx.cardGroupsBySize.flatten ~ ctx.cards)
    (g g' : List Card) (rest : List (List Card))
    (hG : ctx.cardGroupsBySize = g :: g' :: rest) :
    (∀ c ∈ g ++ g', c ∈ ctx.cards) ∧ ((g ++ g').map Card.cardId).Nodup := by
  have hsl : g ++ g' <+ ctx.cardGroupsBySize.flatten := by
    rw [hG]
    simp only [List.flatten_cons]
    rw [← List.append_assoc]
    exact List.sublist_append_left _ _
  constructor
  · intro c hc
    exact hgr.subset (hsl.subset hc)
  · exact (hsl.map _).nodup ((hgr.map _).nodup_iff.2 hIds)

/-! ### The cards used by each successful result evaluator -/

/-- High-cards: the 5 highest cards of the hand. -/
theorem highCardsEvaluate_ok (ctx : EvalContext) (r : HandResult)
    (hIds : (ctx.cards.map Card.cardId).Nodup)
    (hbv : ctx.cardsByValue ~ ctx.cards)
    (hlen : 5 ≤ ctx.cards.length)
    (h : highCardsEvaluate ctx = some r) :
    ∃ cs : List Card, r.cardIds = cs.map Card.cardId ∧ cs.length = 5 ∧
      (cs.map Card.cardId).Nodup ∧ ∀ c ∈ cs, c ∈ ctx.cards := by
  simp only [highCardsEvaluate, Option.some.injEq] at h
  refine ⟨ctx.cardsByValue.take 5, by rw [← h]; rfl, ?_, ?_, ?_⟩
  · have := hbv.length_eq
    simp only [List.length_take]
    omega
  · exact ((List.take_sublist 5 _).map Card.cardId).nodup
      ((hbv.map Card.cardId).nodup_iff.2 hIds)
  · intro c hc
    exact hbv.subset (List.take_subset 5 _ hc)

/-- Four-of-a-kind: four of the top group plus one kicker. -/
theorem fourOfAKindEvaluate_ok (ctx : EvalContext) (r : HandResult)
    (hIds : (ctx.cards.map Card.cardId).Nodup)
    (hgr : ctx.cardGroupsBySize.flatten ~ ctx.cards)
    (hlen : 5 ≤ ctx.cards.length)
    (h : fourOfAKindEvaluate ctx = some r) :
    ∃ cs : List Card, r.cardIds = cs.map Card.cardId ∧ cs.length = 5 ∧
      (cs.map Card.cardId).Nodup ∧ ∀ c ∈ cs, c ∈ ctx.cards := by
  rw [fourOfAKindEvaluate] at h
  cases hG : ctx.cardGroupsBySize with
  | nil => rw [hG] at h; exact absurd h (by simp)
  | cons g gs =>
    rw [hG] at h
    dsimp only at h
    split at h
    · rename_i hglen
      injection h with h
      obtain ⟨hgmem, hgnd⟩ := group_facts ctx hIds hgr g (by rw [hG]; simp)
      have htl : (g.take 4).length = 4 := by simp [List.length_take]; omega
      have hsub : ∀ c ∈ g.take 4, c ∈ ctx.cards :=
        fun c hc => hgmem c (List.take_subset 4 g hc)
      have hrcIds : ((g.take 4).map Card.cardId).Nodup :=
        ((List.take_sublist 4 g).map Card.cardId).nodup hgnd
      obtain ⟨h1, h2, h3⟩ := rc_kickers_ok ctx hIds hlen (g.take 4) 1 hsub hrcIds
        (by omega)
      exact ⟨_, by rw [← h]; rfl, h1, h2, h3⟩
    · exact absurd h (by simp)

/-- Three-of-a-kind: three of the top group plus two kickers. -/
theorem threeOfAKindEvaluate_ok (ctx : EvalContext) (r : HandResult)
    (hIds : (ctx.cards.map Card.cardId).Nodup)
    (hgr : ctx.cardGroupsBySize.flatten ~ ctx.cards)
    (hlen : 5 ≤ ctx.cards.length)
    (h : threeOfAKindEvaluate ctx = some r) :
    ∃ cs : List Card, r.cardIds = cs.map Card.cardId ∧ cs.length = 5 ∧
      (cs.map Card.cardId).Nodup ∧ ∀ c ∈ cs, c ∈ ctx.cards := by
  rw [threeOfAKindEvaluate] at h
  cases hG : ctx.cardGroupsBySize with
  | nil => rw [hG] at h; exact absurd h (by simp)
  | cons g gs =>
    rw [hG] at h
    dsimp only at h
    split at h
    · rename_i hglen
      injection h with h
      obtain ⟨hgmem, hgnd⟩ := group_facts ctx hIds hgr g (by rw [hG]; simp)
      have htl : (g.take 3).length = 3 := by simp [List.length_take]; omega
      have hsub : ∀ c ∈ g.take 3, c ∈ ctx.cards :=
        fun c hc => hgmem c (List.take_subset 3 g hc)
      have hrcIds : ((g.take 3).map Card.cardId).Nodup :=
        ((List.take_sublist 3 g).map Card.cardId).nodup hgnd
      obtain ⟨h1, h2, h3⟩ := rc_kickers_ok ctx hIds hlen (g.take 3) 2 hsub hrcIds
        (by omega)
      exact ⟨_, by rw [← h]; rfl, h1, h2, h3⟩
    · exact absurd h (by simp)

/-- Pair: two of the top group plus three kickers. -/
theorem pairEvaluate_ok (ctx : EvalContext) (r : HandResult)
    (hIds : (ctx.cards.map Card.cardId).Nodup)
    (hgr : ctx.cardGroupsBySize.flatten ~ ctx.cards)
    (hlen : 5 ≤ ctx.cards.length)
    (h : pairEvaluate ctx = some r) :
    ∃ cs : List Card, r.cardIds = cs.map Card.cardId ∧ cs.length = 5 ∧
      (cs.map Card.cardId).Nodup ∧ ∀ c ∈ cs, c ∈ ctx.cards := by
  rw [pairEvaluate] at h
  cases hG : ctx.cardGroupsBySize with
  | nil => rw [hG] at h; exact absurd h (by simp)
  | cons g gs =>
    rw [hG] at h
    dsimp only at h
    split at h
    · rename_i hglen
      injection h with h
      obtain ⟨hgmem, hgnd⟩ := group_facts ctx hIds hgr g (by rw [hG]; simp)
      have htl : (g.take 2).length = 2 := by simp [List.length_take]; omega
      have hsub : ∀ c ∈ g.take 2, c ∈ ctx.cards :=
        fun c hc => hgmem c (List.take_subset 2 g hc)
      have hrcIds : ((g.take 2).map Card.cardId).Nodup :=
        ((List.take_sublist 2 g).map Card.cardId).nodup hgnd
      obtain ⟨h1, h2, h3⟩ := rc_kickers_ok ctx hIds hlen (g.take 2) 3 hsub hrcIds
        (by omega)
      exact ⟨_, by rw [← h]; rfl, h1, h2, h3⟩
    · exact absurd h (by simp)

/-- The two-pair scan succeeds exactly on the two leading groups. -/
theorem twoPairLoop_two (G : List (List Card)) (a b : List Card)
    (h : twoPairLoop [] G = [a, b]) :
    ∃ g g' rest, G = g :: g' :: rest ∧ 2 ≤ g.length ∧ 2 ≤ g'.length ∧
      a = g.take 2 ∧ b = g'.take 2 := by
  cases G with
  | nil => exact absurd h (by simp [twoPairLoop])
  | cons g rest =>
    rw [twoPairLoop] at h
    split at h
    · rename_i hg
      dsimp only at h
      rw [if_neg (by simp)] at h
      cases rest with
      | nil => rw [twoPairLoop] at h; exact absurd h (by simp)
      | cons g' rest' =>
        rw [twoPairLoop] at h
        split at h
        · rename_i hg'
          rw [if_pos (by simp)] at h
          simp only [List.cons.injEq, List.nil_append] at h
          obtain ⟨rfl, rfl, -⟩ := h
          exact ⟨g, g', rest', rfl, hg, hg', rfl, rfl⟩
        · exact absurd h (by simp)
    · exact absurd h (by simp)

/-- Two-pair: two groups of two plus one kicker. -/
theorem twoPairEvaluate_ok (ctx : EvalContext) (r : HandResult)
    (hIds : (ctx.cards.map Card.cardId).Nodup)
    (hgr : ctx.cardGroupsBySize.flatten ~ ctx.cards)
    (hlen : 5 ≤ ctx.cards.length)
    (h : twoPairEvaluate ctx = some r) :
    ∃ cs : List Card, r.cardIds = cs.map Card.cardId ∧ cs.length = 5 ∧
      (cs.map Card.cardId).Nodup ∧ ∀ c ∈ cs, c ∈ ctx.cards := by
  rw [twoPairEvaluate] at h
  cases hL : twoPairLoop [] ctx.cardGroupsBySize with
  | nil => rw [hL] at h; exact absurd h (by simp)
  | cons a t =>
    cases t with
    | nil => rw [hL] at h; exact absurd h (by simp)
    | cons b t' =>
      cases t' with
      | cons x t'' => rw [hL] at h; exact absurd h (by simp)
      | nil =>
        rw [hL] at h
        dsimp only at h
        injection h with h
        obtain ⟨g, g', rest, hG, hg, hg', rfl, rfl⟩ := twoPairLoop_two _ _ _ hL
        obtain ⟨hmem2, hnd2⟩ := two_groups_facts ctx hIds hgr g g' rest hG
        have hslt : g.take 2 ++ g'.take 2 <+ g ++ g' :=
          (List.take_sublist 2 g).append (List.take_sublist 2 g')
        have hsub : ∀ c ∈ g.take 2 ++ g'.take 2, c ∈ ctx.cards :=
          fun c hc => hmem2 c (hslt.subset hc)
        have hrcIds : ((g.take 2 ++ g'.take 2).map Card.cardId).Nodup :=
          (hslt.map Card.cardId).nodup hnd2
        have hl2 : (g.take 2).length = 2 := by simp [List.length_take]; omega
        have hl2' : (g'.take 2).length = 2 := by simp [List.length_take]; omega
        obtain ⟨h1, h2, h3⟩ := rc_kickers_ok ctx hIds hlen (g.take 2 ++ g'.take 2) 1
          hsub hrcIds (by simp [List.length_append, hl2, hl2'])
        exact ⟨_, by rw [← h]; rfl, h1, h2, h3⟩

/-- The full-house scan succeeds exactly on the two leading groups. -/
theorem fhLoop_some (G : List (List Card)) (t w : List Card)
    (h : fhLoop none none G = (some t, some w)) :
    ∃ g g' rest, G = g :: g' :: rest ∧ 3 ≤ g.length ∧ 2 ≤ g'.length ∧
      t = g.take 3 ∧ w = g'.take 2 := by
  cases G with
  | nil => exact absurd h (by simp [fhLoop])
  | cons g rest =>
    rw [fhLoop] at h
    split at h
    · rename_i hg
      try dsimp only at h
      cases rest with
      | nil => rw [fhLoop] at h; exact absurd h (by simp)
      | cons g' rest' =>
        rw [fhLoop] at h
        split at h
        · rename_i hg'
          try dsimp only at h
          simp only [Prod.mk.injEq, Option.some.injEq] at h
          obtain ⟨rfl, rfl⟩ := h
          exact ⟨g, g', rest', rfl, hg, by omega, rfl, rfl⟩
        · rename_i hg'
          split at h
          · rename_i hg2
            try dsimp only at h
            simp only [Prod.mk.injEq, Option.some.injEq] at h
            obtain ⟨rfl, rfl⟩ := h
            exact ⟨g, g', rest', rfl, hg, by omega, rfl, rfl⟩
          · simp only [Prod.mk.injEq] at h
            exact absurd h.2 (by simp)
    · split at h
      · try dsimp only at h
        simp only [Prod.mk.injEq] at h
        exact absurd h.1 (by simp)
      · simp only [Prod.mk.injEq] at h
        exact absurd h.1 (by simp)

/-- Full house: three of one group and two of a later group. -/
theorem fullHouseEvaluate_ok (ctx : EvalContext) (r : HandResult)
    (hIds : (ctx.cards.map Card.cardId).Nodup)
    (hgr : ctx.cardGroupsBySize.flatten ~ ctx.cards)
    (hlen : 5 ≤ ctx.cards.length)
    (h : fullHouseEvaluate ctx = some r) :
    ∃ cs : List Card, r.cardIds = cs.map Card.cardId ∧ cs.length = 5 ∧
      (cs.map Card.cardId).Nodup ∧ ∀ c ∈ cs, c ∈ ctx.cards := by
  rw [fullHouseEvaluate] at h
  cases hL : fhLoop none none ctx.cardGroupsBySize with
  | mk three two =>
    rw [hL] at h
    cases three with
    | none => dsimp only at h; exact absurd h (by simp)
    | some t =>
      cases two with
      | none => dsimp only at h; exact absurd h (by simp)
      | some w =>
        dsimp only at h
        injection h with h
        obtain ⟨g, g', rest, hG, hg, hg', rfl, rfl⟩ := fhLoop_some _ _ _ hL
        obtain ⟨hmem2, hnd2⟩ := two_groups_facts ctx hIds hgr g g' rest hG
        have hslt : g.take 3 ++ g'.take 2 <+ g ++ g' :=
          (List.take_sublist 3 g).append (List.take_sublist 2 g')
        have hl3 : (g.take 3).length = 3 := by simp [List.length_take]; omega
        have hl2 : (g'.take 2).length = 2 := by simp [List.length_take]; omega
        refine ⟨g.take 3 ++ g'.take 2, by rw [← h]; rfl, ?_, ?_, ?_⟩
        · simp [List.length_append, hl3, hl2]
        · exact (hslt.map Card.cardId).nodup hnd2
        · intro c hc
          exact hmem2 c (hslt.subset hc)

/-- The flush scan returns a 5-card contiguous same-suit run. -/
theorem flushLoop_some (L : List Card) :
    ∀ (rest : List Card) (hd : Card) (tl : List Card) (run : List Card),
      (hd :: tl) ++ rest <+ L → flushLoop hd tl rest = some run →
      run.length = 5 ∧ run <+ L := by
  intro rest
  induction rest with
  | nil => intro hd tl run hsl h; exact absurd h (by simp [flushLoop])
  | cons c rest ih =>
    intro hd tl run hsl h
    have hsl' : (hd :: (tl ++ [c])) ++ rest <+ L := by
      simpa [List.append_assoc] using hsl
    rw [flushLoop] at h
    split at h
    · dsimp only at h
      split at h
      · rename_i hlen5
        injection h with h
        subst h
        refine ⟨hlen5, ?_⟩
        exact (List.sublist_append_left _ rest).trans hsl'
      · exact ih hd (tl ++ [c]) run hsl' h
    · refine ih c [] run ?_ h
      exact (List.sublist_append_right _ _).trans hsl

/-- Flush: a 5-card same-suit run of the suit-sorted hand. -/
theorem flushEvaluate_ok (ctx : EvalContext) (r : HandResult)
    (hIds : (ctx.cards.map Card.cardId).Nodup)
    (hbs : ctx.cardsBySuit ~ ctx.cards)
    (h : flushEvaluate ctx = some r) :
    ∃ cs : List Card, r.cardIds = cs.map Card.cardId ∧ cs.length = 5 ∧
      (cs.map Card.cardId).Nodup ∧ ∀ c ∈ cs, c ∈ ctx.cards := by
  rw [flushEvaluate] at h
  cases hcs : ctx.cardsBySuit with
  | nil => rw [hcs] at h; exact absurd h (by simp)
  | cons c rest =>
    rw [hcs] at h
    dsimp only at h
    cases hrun : flushLoop c [] rest with
    | none => rw [hrun] at h; exact absurd h (by simp)
    | some run =>
      rw [hrun] at h
      dsimp only at h
      injection h with h
      obtain ⟨hl5, hslL⟩ := flushLoop_some (c :: rest) rest c [] run (by simp) hrun
      have hsl : run <+ ctx.cardsBySuit := by rw [hcs]; exact hslL
      refine ⟨run, by rw [← h]; rfl, hl5, ?_, ?_⟩
      · exact (hsl.map Card.cardId).nodup ((hbs.map Card.cardId).nodup_iff.2 hIds)
      · intro x hx
        exact hbs.subset (hsl.subset hx)

/-! ### Facts about the straight-run scans -/

/-- `getLast?` of a cons in terms of `getLastD`. -/
theorem getLast?_cons_getLastD : ∀ (tl : List Card) (hd : Card),
    (hd :: tl).getLast? = some (tl.getLastD hd) := by
  intro tl
  induction tl with
  | nil => intro hd; rfl
  | cons x tl' ih =>
    intro hd
    rw [List.getLast?_cons_cons, ih x, List.getLastD_cons]

/-- A consecutive descending run determines its last value. -/
theorem chain_desc_getLastD : ∀ (tl : List Card) (hd : Card),
    List.Chain' (fun a b => b.value + 1 = a.value) (hd :: tl) →
    (tl.getLastD hd).value + tl.length = hd.value := by
  intro tl
  induction tl with
  | nil => intro hd _; simp
  | cons x tl' ih =>
    intro hd h
    rw [List.chain'_cons] at h
    have hx := ih x h.2
    rw [List.getLastD_cons]
    simp only [List.length_cons]
    omega

/-- Every card of a consecutive descending run is at most the head. -/
theorem chain_desc_le : ∀ (tl : List Card) (hd : Card),
    List.Chain' (fun a b => b.value + 1 = a.value) (hd :: tl) →
    ∀ x ∈ hd :: tl, x.value ≤ hd.value := by
  intro tl
  induction tl with
  | nil =>
    intro hd _ x hx
    rw [List.mem_singleton.1 hx]
  | cons y tl' ih =>
    intro hd h x hx
    rw [List.chain'_cons] at h
    rcases List.mem_cons.1 hx with rfl | hx'
    · exact Nat.le_refl _
    · have := ih y h.2 x hx'
      omega

/-- Extending a consecutive descending run by the next lower value. -/
theorem chain_desc_extend (hd : Card) (tl : List Card) (c : Card)
    (h : List.Chain' (fun a b => b.value + 1 = a.value) (hd :: tl))
    (hc : c.value + 1 = (tl.getLastD hd).value) :
    List.Chain' (fun a b => b.value + 1 = a.value) (hd :: (tl ++ [c])) := by
  have hshape : hd :: (tl ++ [c]) = (hd :: tl) ++ [c] := by simp
  rw [hshape, List.chain'_append]
  refine ⟨h, List.chain'_singleton c, ?_⟩
  intro x hx y hy
  rw [getLast?_cons_getLastD tl hd] at hx
  simp only [Option.mem_def, Option.some.injEq] at hx
  simp only [List.head?_cons, Option.mem_def, Option.some.injEq] at hy
  rw [← hx, ← hy]
  exact hc

/-- The straight-flush scan returns 5 cards of the scanned list with
distinct ids: either a contiguous run of 5 or a wheel run of 4 plus the
(separately tracked) ace. -/
theorem sfLoop_some (L : List Card) (hIds : (L.map Card.cardId).Nodup) :
    ∀ (rest : List Card) (aces : Nat → Option Card) (hd : Card) (tl : List Card)
      (run : List Card),
      (hd :: tl) ++ rest <+ L →
      List.Chain' (fun a b => b.value + 1 = a.value) (hd :: tl) →
      (∀ s a, aces s = some a → a ∈ L ∧ a.value = 14) →
      sfLoop aces hd tl rest = some run →
      run.length = 5 ∧ (run.map Card.cardId).Nodup ∧ ∀ c ∈ run, c ∈ L := by
  intro rest
  induction rest with
  | nil =>
    intro aces hd tl run hsl hch hac h
    rw [sfLoop] at h
    split at h
    · rename_i hlen5
      injection h with h
      subst h
      have hsl5 : hd :: tl <+ L := by simpa using hsl
      exact ⟨hlen5, (hsl5.map Card.cardId).nodup hIds,
        fun c hc => hsl5.subset hc⟩
    · exact absurd h (by simp)
  | cons c rest ih =>
    intro aces hd tl run hsl hch hac h
    have hsl' : (hd :: (tl ++ [c])) ++ rest <+ L := by
      simpa [List.append_assoc] using hsl
    have hrunsl : hd :: (tl ++ [c]) <+ L :=
      (List.sublist_append_left _ rest).trans hsl'
    have hcL : c ∈ L := hsl.subset (by simp)
    have hacupd : ∀ s a, updAcesBySuit aces c s = some a → a ∈ L ∧ a.value = 14 := by
      intro s a ha
      rw [updAcesBySuit] at ha
      split at ha
      · rename_i hc14
        dsimp only at ha
        split at ha
        · injection ha with ha
          rw [← ha]
          exact ⟨hcL, hc14⟩
        · exact hac s a ha
      · exact hac s a ha
    rw [sfLoop] at h
    split at h
    · rename_i hcond
      dsimp only at h
      have hch' : List.Chain' (fun a b => b.value + 1 = a.value) (hd :: (tl ++ [c])) :=
        chain_desc_extend hd tl c hch hcond.2
      split at h
      · rename_i hlen5
        injection h with h
        subst h
        exact ⟨hlen5, (hrunsl.map Card.cardId).nodup hIds,
          fun x hx => hrunsl.subset hx⟩
      · split at h
        · rename_i hwrap
          cases hace : updAcesBySuit aces c hd.suit with
          | none =>
            rw [hace] at h
            exact ih (updAcesBySuit aces c) hd (tl ++ [c]) run hsl' hch' hacupd h
          | some a =>
            rw [hace] at h
            injection h with h
            subst h
            obtain ⟨haL, ha14⟩ := hacupd hd.suit a hace
            have htllen : tl.length + 2 = 4 := by
              have := hwrap.1
              simpa using this
            have hhd5 : hd.value = 5 := by
              have hlast := chain_desc_getLastD (tl ++ [c]) hd hch'
              rw [List.getLastD_concat] at hlast
              have hc2 : c.value = 2 := hwrap.2
              simp only [List.length_append, List.length_singleton] at hlast
              omega
            have hale : ∀ x ∈ hd :: (tl ++ [c]), x.value ≤ 5 := by
              intro x hx
              have := chain_desc_le (tl ++ [c]) hd hch' x hx
              omega
            have hanotin : a ∉ hd :: (tl ++ [c]) := by
              intro hmem
              have := hale a hmem
              omega
            have haid : a.cardId ∉ (hd :: (tl ++ [c])).map Card.cardId := by
              intro hmem
              obtain ⟨x, hx, hxid⟩ := List.mem_map.1 hmem
              have hx_eq : x = a :=
                List.inj_on_of_nodup_map hIds (hrunsl.subset hx) haL hxid
              rw [hx_eq] at hx
              exact hanotin hx
            refine ⟨by simpa using htllen, ?_, ?_⟩
            · rw [List.map_append, List.nodup_append]
              refine ⟨(hrunsl.map Card.cardId).nodup hIds, by simp, ?_⟩
              intro b hb hb2
              simp only [List.map_cons, List.map_nil, List.mem_singleton] at hb2
              rw [hb2] at hb
              exact haid hb
            · intro x hx
              rcases List.mem_append.1 hx with hx | hx
              · exact hrunsl.subset hx
              · rw [List.mem_singleton.1 hx]
                exact haL
        · exact ih (updAcesBySuit aces c) hd (tl ++ [c]) run hsl' hch' hacupd h
    · refine ih (updAcesBySuit aces c) c [] run ?_ (List.chain'_singleton c) hacupd h
      exact (List.sublist_append_right _ _).trans hsl

/-- The straight scan returns 5 cards of the scanned list with distinct
ids: a descending run of 5 values or a wheel run of 4 plus the ace. -/
theorem stLoop_some (L : List Card) (hIds : (L.map Card.cardId).Nodup) :
    ∀ (rest : List Card) (ace : Option Card) (hd : Card) (tl : List Card)
      (run : List Card),
      (hd :: tl) ++ rest <+ L →
      List.Chain' (fun a b => b.value + 1 = a.value) (hd :: tl) →
      (∀ a, ace = some a → a ∈ L ∧ a.value = 14) →
      stLoop ace hd tl rest = some run →
      run.length = 5 ∧ (run.map Card.cardId).Nodup ∧ ∀ c ∈ run, c ∈ L := by
  intro rest
  induction rest with
  | nil =>
    intro ace hd tl run hsl hch hac h
    rw [stLoop] at h
    split at h
    · rename_i hlen5
      injection h with h
      subst h
      have hsl5 : hd :: tl <+ L := by simpa using hsl
      exact ⟨hlen5, (hsl5.map Card.cardId).nodup hIds,
        fun c hc => hsl5.subset hc⟩
    · exact absurd h (by simp)
  | cons c rest ih =>
    intro ace hd tl run hsl hch hac h
    have hsl' : (hd :: (tl ++ [c])) ++ rest <+ L := by
      simpa [List.append_assoc] using hsl
    have hrunsl : hd :: (tl ++ [c]) <+ L :=
      (List.sublist_append_left _ rest).trans hsl'
    have hskip : (hd :: tl) ++ rest <+ L := by
      refine List.Sublist.trans ?_ hsl
      refine List.Sublist.append_left ?_ (hd :: tl)
      exact List.sublist_cons_self c rest
    have hcL : c ∈ L := hsl.subset (by simp)
    have hacupd : ∀ a, stAce ace c = some a → a ∈ L ∧ a.value = 14 := by
      intro a ha
      rw [stAce] at ha
      split at ha
      · rename_i hc14
        injection ha with ha
        rw [← ha]
        exact ⟨hcL, hc14.1⟩
      · exact hac a ha
    rw [stLoop] at h
    split at h
    · exact ih (stAce ace c) hd tl run hskip hch hacupd h
    · split at h
      · rename_i hcond
        dsimp only at h
        have hch' : List.Chain' (fun a b => b.value + 1 = a.value) (hd :: (tl ++ [c])) :=
          chain_desc_extend hd tl c hch hcond
        split at h
        · rename_i hlen5
          injection h with h
          subst h
          exact ⟨hlen5, (hrunsl.map Card.cardId).nodup hIds,
            fun x hx => hrunsl.subset hx⟩
        · split at h
          · rename_i hwrap
            cases hace : stAce ace c with
            | none =>
              rw [hace] at h
              dsimp only at h
              exact ih none hd (tl ++ [c]) run hsl' hch'
                (fun a ha => absurd ha (by simp)) h
            | some a =>
              rw [hace] at h
              injection h with h
              subst h
              obtain ⟨haL, ha14⟩ := hacupd a hace
              have htllen : tl.length + 2 = 4 := by
                have := hwrap.1
                simpa using this
              have hhd5 : hd.value = 5 := by
                have hlast := chain_desc_getLastD (tl ++ [c]) hd hch'
                rw [List.getLastD_concat] at hlast
                have hc2 : c.value = 2 := hwrap.2
                simp only [List.length_append, List.length_singleton] at hlast
                omega
              have hale : ∀ x ∈ hd :: (tl ++ [c]), x.value ≤ 5 := by
                intro x hx
                have := chain_desc_le (tl ++ [c]) hd hch' x hx
                omega
              have hanotin : a ∉ hd :: (tl ++ [c]) := by
                intro hmem
                have := hale a hmem
                omega
              have haid : a.cardId ∉ (hd :: (tl ++ [c])).map Card.cardId := by
                intro hmem
                obtain ⟨x, hx, hxid⟩ := List.mem_map.1 hmem
                have hx_eq : x = a :=
                  List.inj_on_of_nodup_map hIds (hrunsl.subset hx) haL hxid
                rw [hx_eq] at hx
                exact hanotin hx
              refine ⟨by simpa using htllen, ?_, ?_⟩
              · rw [List.map_append, List.nodup_append]
                refine ⟨(hrunsl.map Card.cardId).nodup hIds, by simp, ?_⟩
                intro b hb hb2
                simp only [List.map_cons, List.map_nil, List.mem_singleton] at hb2
                rw [hb2] at hb
                exact haid hb
              · intro x hx
                rcases List.mem_append.1 hx with hx | hx
                · exact hrunsl.subset hx
                · rw [List.mem_singleton.1 hx]
                  exact haL
          · exact ih (stAce ace c) hd (tl ++ [c]) run hsl' hch' hacupd h
      · refine ih (stAce ace c) c [] run ?_ (List.chain'_singleton c) hacupd h
        exact (List.sublist_append_right _ _).trans hsl

/-- Straight flush: 5 cards of the suit-sorted hand with distinct ids. -/
theorem straightFlushEvaluate_ok (ctx : EvalContext) (r : HandResult)
    (hIds : (ctx.cards.map Card.cardId).Nodup)
    (hbs : ctx.cardsBySuit ~ ctx.cards)
    (h : straightFlushEvaluate ctx = some r) :
    ∃ cs : List Card, r.cardIds = cs.map Card.cardId ∧ cs.length = 5 ∧
      (cs.map Card.cardId).Nodup ∧ ∀ c ∈ cs, c ∈ ctx.cards := by
  rw [straightFlushEvaluate] at h
  cases hcs : ctx.cardsBySuit with
  | nil => rw [hcs] at h; exact absurd h (by simp)
  | cons c rest =>
    rw [hcs] at h
    dsimp only at h
    cases hrun : sfLoop (updAcesBySuit (fun _ => none) c) c [] rest with
    | none => rw [hrun] at h; exact absurd h (by simp)
    | some run =>
      rw [hrun] at h
      dsimp only at h
      injection h with h
      have hIdsL : ((c :: rest).map Card.cardId).Nodup := by
        rw [← hcs]
        exact (hbs.map _).nodup_iff.2 hIds
      have hbase : ∀ s a, updAcesBySuit (fun _ => none) c s = some a →
          a ∈ c :: rest ∧ a.value = 14 := by
        intro s a ha
        rw [updAcesBySuit] at ha
        split at ha
        · rename_i hc14
          dsimp only at ha
          split at ha
          · injection ha with ha
            rw [← ha]
            exact ⟨by simp, hc14⟩
          · exact absurd ha (by simp)
        · exact absurd ha (by simp)
      obtain ⟨h5, hnd, hmem⟩ := sfLoop_some (c :: rest) hIdsL rest _ c [] run
        (by simp) (List.chain'_singleton c) hbase hrun
      refine ⟨run, by rw [← h]; rfl, h5, hnd, ?_⟩
      intro x hx
      refine hbs.subset ?_
      rw [hcs]
      exact hmem x hx

/-- Straight: 5 cards of the value-sorted hand with distinct ids. -/
theorem straightEvaluate_ok (ctx : EvalContext) (r : HandResult)
    (hIds : (ctx.cards.map Card.cardId).Nodup)
    (hbv : ctx.cardsByValue ~ ctx.cards)
    (h : straightEvaluate ctx = some r) :
    ∃ cs : List Card, r.cardIds = cs.map Card.cardId ∧ cs.length = 5 ∧
      (cs.map Card.cardId).Nodup ∧ ∀ c ∈ cs, c ∈ ctx.cards := by
  rw [straightEvaluate] at h
  cases hcs : ctx.cardsByValue with
  | nil => rw [hcs] at h; exact absurd h (by simp)
  | cons c rest =>
    rw [hcs] at h
    dsimp only at h
    cases hrun : stLoop (stAce none c) c [] rest with
    | none => rw [hrun] at h; exact absurd h (by simp)
    | some run =>
      rw [hrun] at h
      dsimp only at h
      injection h with h
      have hIdsL : ((c :: rest).map Card.cardId).Nodup := by
        rw [← hcs]
        exact (hbv.map _).nodup_iff.2 hIds
      have hbase : ∀ a, stAce none c = some a → a ∈ c :: rest ∧ a.value = 14 := by
        intro a ha
        rw [stAce] at ha
        split at ha
        · rename_i hc14
          injection ha with ha
          rw [← ha]
          exact ⟨by simp, hc14.1⟩
        · exact absurd ha (by simp)
      obtain ⟨h5, hnd, hmem⟩ := stLoop_some (c :: rest) hIdsL rest _ c [] run
        (by simp) (List.chain'_singleton c) hbase hrun
      refine ⟨run, by rw [← h]; rfl, h5, hnd, ?_⟩
      intro x hx
      refine hbv.subset ?_
      rw [hcs]
      exact hmem x hx

/-- Conversion of the per-evaluator facts to the id-level statement. -/
theorem conclude_ids (hand : List Nat) (ctx : EvalContext)
    (hcards : ctx.cards = hand.map cardComponents)
    (ids : List Nat) (cs : List Card)
    (hids : ids = cs.map Card.cardId) (hl : cs.length = 5)
    (hnd : (cs.map Card.cardId).Nodup) (hm : ∀ c ∈ cs, c ∈ ctx.cards) :
    ids.length = 5 ∧ ids.Nodup ∧ ∀ id ∈ ids, id ∈ hand := by
  subst hids
  refine ⟨by simp [hl], hnd, ?_⟩
  intro id hid
  obtain ⟨c, hc, rfl⟩ := List.mem_map.1 hid
  have hcm := hm c hc
  rw [hcards] at hcm
  obtain ⟨x, hx, rfl⟩ := List.mem_map.1 hcm
  exact hx

/-! ## Claim C9: the result's `cardIds` are 5 distinct hand cards -/

/-- C9: for every valid hand of 5-7 unique cards, the result returned by
`getHandResult` (whatever its category) carries a `cardIds` list of
exactly 5 pairwise-distinct identifiers, all members of the input hand. -/
theorem c9_result_card_ids (hand : List Nat) (r : HandResult)
    (hnd : hand.Nodup) (hvalid : ∀ id ∈ hand, 1 ≤ id ∧ id ≤ 52)
    (h5 : 5 ≤ hand.length) (h7 : hand.length ≤ 7)
    (h : getHandResult hand = .ok (some r)) :
    r.cardIds.length = 5 ∧ r.cardIds.Nodup ∧ ∀ id ∈ r.cardIds, id ∈ hand := by
  rw [getHandResult] at h
  cases hctx : getEvalContext hand with
  | error e => rw [hctx] at h; exact absurd h (by simp)
  | ok ctx =>
    rw [hctx] at h
    dsimp only at h
    injection h with h
    obtain ⟨hcards, hIds, hbv, hbs, hgr, hlen⟩ :=
      ctx_facts hand ctx hvalid hnd h5 h7 hctx
    rw [resultEvaluatorOrder] at h
    rw [getHandResultGo] at h
    rw [show evaluators "straight-flush" =
      some ⟨5, 7, true, straightFlushEvaluate, some cmpResHighValue⟩ from rfl] at h
    dsimp only at h
    cases he1 : straightFlushEvaluate ctx with
    | some r0 =>
      rw [he1] at h
      dsimp only at h
      injection h with h
      obtain ⟨cs, hcs, hl', hnd', hm'⟩ := straightFlushEvaluate_ok ctx r0 hIds hbs he1
      have hcid : r.cardIds = r0.cardIds := by rw [← h]
      rw [hcid]
      exact conclude_ids hand ctx hcards r0.cardIds cs hcs hl' hnd' hm'
    | none =>
    rw [he1] at h
    dsimp only at h
    rw [getHandResultGo] at h
    rw [show evaluators "four-of-a-kind" =
      some ⟨5, 7, true, fourOfAKindEvaluate, some cmpResValueKickers⟩ from rfl] at h
    dsimp only at h
    cases he2 : fourOfAKindEvaluate ctx with
    | some r0 =>
      rw [he2] at h
      dsimp only at h
      injection h with h
      obtain ⟨cs, hcs, hl', hnd', hm'⟩ := fourOfAKindEvaluate_ok ctx r0 hIds hgr hlen he2
      have hcid : r.cardIds = r0.cardIds := by rw [← h]
      rw [hcid]
      exact conclude_ids hand ctx hcards r0.cardIds cs hcs hl' hnd' hm'
    | none =>
    rw [he2] at h
    dsimp only at h
    rw [getHandResultGo] at h
    rw [show evaluators "full-house" =
      some ⟨5, 7, true, fullHouseEvaluate, some cmpResFullHouse⟩ from rfl] at h
    dsimp only at h
    cases he3 : fullHouseEvaluate ctx with
    | some r0 =>
      rw [he3] at h
      dsimp only at h
      injection h with h
      obtain ⟨cs, hcs, hl', hnd', hm'⟩ := fullHouseEvaluate_ok ctx r0 hIds hgr hlen he3
      have hcid : r.cardIds = r0.cardIds := by rw [← h]
      rw [hcid]
      exact conclude_ids hand ctx hcards r0.cardIds cs hcs hl' hnd' hm'
    | none =>
    rw [he3] at h
    dsimp only at h
    rw [getHandResultGo] at h
    rw [show evaluators "flush" =
      some ⟨5, 7, true, flushEvaluate, some cmpResKickers⟩ from rfl] at h
    dsimp only at h
    cases he4 : flushEvaluate ctx with
    | some r0 =>
      rw [he4] at h
      dsimp only at h
      injection h with h
      obtain ⟨cs, hcs, hl', hnd', hm'⟩ := flushEvaluate_ok ctx r0 hIds hbs he4
      have hcid : r.cardIds = r0.cardIds := by rw [← h]
      rw [hcid]
      exact conclude_ids hand ctx hcards r0.cardIds cs hcs hl' hnd' hm'
    | none =>
    rw [he4] at h
    dsimp only at h
    rw [getHandResultGo] at h
    rw [show evaluators "straight" =
      some ⟨5, 7, true, straightEvaluate, some cmpResHighValue⟩ from rfl] at h
    dsimp only at h
    cases he5 : straightEvaluate ctx with
    | some r0 =>
      rw [he5] at h
      dsimp only at h
      injection h with h
      obtain ⟨cs, hcs, hl', hnd', hm'⟩ := straightEvaluate_ok ctx r0 hIds hbv he5
      have hcid : r.cardIds = r0.cardIds := by rw [← h]
      rw [hcid]
      exact conclude_ids hand ctx hcards r0.cardIds cs hcs hl' hnd' hm'
    | none =>
    rw [he5] at h
    dsimp only at h
    rw [getHandResultGo] at h
    rw [show evaluators "three-of-a-kind" =
      some ⟨5, 7, true, threeOfAKindEvaluate, some cmpResValueKickers⟩ from rfl] at h
    dsimp only at h
    cases he6 : threeOfAKindEvaluate ctx with
    | some r0 =>
      rw [he6] at h
      dsimp only at h
      injection h with h
      obtain ⟨cs, hcs, hl', hnd', hm'⟩ := threeOfAKindEvaluate_ok ctx r0 hIds hgr hlen he6
      have hcid : r.cardIds = r0.cardIds := by rw [← h]
      rw [hcid]
      exact conclude_ids hand ctx hcards r0.cardIds cs hcs hl' hnd' hm'
    | none =>
    rw [he6] at h
    dsimp only at h
    rw [getHandResultGo] at h
    rw [show evaluators "two-pair" =
      some ⟨5, 7, true, twoPairEvaluate, some cmpResTwoPair⟩ from rfl] at h
    dsimp only at h
    cases he7 : twoPairEvaluate ctx with
    | some r0 =>
      rw [he7] at h
      dsimp only at h
      injection h with h
      obtain ⟨cs, hcs, hl', hnd', hm'⟩ := twoPairEvaluate_ok ctx r0 hIds hgr hlen he7
      have hcid : r.cardIds = r0.cardIds := by rw [← h]
      rw [hcid]
      exact conclude_ids hand ctx hcards r0.cardIds cs hcs hl' hnd' hm'
    | none =>
    rw [he7] at h
    dsimp only at h
    rw [getHandResultGo] at h
    rw [show evaluators "pair" =
      some ⟨5, 7, true, pairEvaluate, some cmpResValueKickers⟩ from rfl] at h
    dsimp only at h
    cases he8 : pairEvaluate ctx with
    | some r0 =>
      rw [he8] at h
      dsimp only at h
      injection h with h
      obtain ⟨cs, hcs, hl', hnd', hm'⟩ := pairEvaluate_ok ctx r0 hIds hgr hlen he8
      have hcid : r.cardIds = r0.cardIds := by rw [← h]
      rw [hcid]
      exact conclude_ids hand ctx hcards r0.cardIds cs hcs hl' hnd' hm'
    | none =>
    rw [he8] at h
    dsimp only at h
    rw [getHandResultGo] at h
    rw [show evaluators "high-cards" =
      some ⟨5, 7, true, highCardsEvaluate, some cmpResKickers⟩ from rfl] at h
    dsimp only at h
    cases he9 : highCardsEvaluate ctx with
    | some r0 =>
      rw [he9] at h
      dsimp only at h
      injection h with h
      obtain ⟨cs, hcs, hl', hnd', hm'⟩ := highCardsEvaluate_ok ctx r0 hIds hbv hlen he9
      have hcid : r.cardIds = r0.cardIds := by rw [← h]
      rw [hcid]
      exact conclude_ids hand ctx hcards r0.cardIds cs hcs hl' hnd' hm'
    | none =>
      rw [he9] at h
      dsimp only at h
      rw [getHandResultGo] at h
      exact absurd h (by simp)

/-- The result computed for the C9 witness hand (a 7-card hand holding a
king-high straight flush in clubs). -/
def sampleHandResult : HandResult :=
  match getHandResult [10, 48, 12, 11, 8, 1, 9] with
  | .ok (some r) => r
  | _ => {}

/-- Witness for C9 at a concrete 7-card hand. -/
theorem c9_witness :
    getHandResult [10, 48, 12, 11, 8, 1, 9] = .ok (some sampleHandResult) ∧
    (sampleHandResult.cardIds.length = 5 ∧ sampleHandResult.cardIds.Nodup ∧
      ∀ id ∈ sampleHandResult.cardIds, id ∈ [10, 48, 12, 11, 8, 1, 9]) :=
  ⟨by decide, c9_result_card_ids [10, 48, 12, 11, 8, 1, 9] sampleHandResult
    (by decide) (by decide) (by decide) (by decide) (by decide)⟩

/-! ## Claim C2: the wheel (A-2-3-4-5)

The evaluation of a hand only depends on the multiset of its cards: the
context's three sorts are permutation-invariant (card components of
distinct valid ids never tie), and the kickers are sorted as well.  This
lets the wheel property be checked once per suit assignment on a
canonical ordering of the hand. -/

/-- A card record arising from a valid identifier. -/
def IsCompCard (c : Card) : Prop := ∃ i, 1 ≤ i ∧ i ≤ 52 ∧ c = cardComponents i

/-- `cmpCardsByValue` is antisymmetric on component records. -/
theorem comps_anti_byValue (l : List Card) (hl : ∀ c ∈ l, IsCompCard c) :
    ∀ a ∈ l, ∀ b ∈ l, cmpCardsByValue a b ≤ 0 → cmpCardsByValue b a ≤ 0 → a = b := by
  intro a ha b hb h1 h2
  obtain ⟨hv, hs⟩ := cmpCardsByValue_eq a b h1 h2
  obtain ⟨i, hi1, hi2, rfl⟩ := hl a ha
  obtain ⟨j, hj1, hj2, rfl⟩ := hl b hb
  rw [cardComponents_inj hi1 hi2 hj1 hj2 hv hs]

/-- `cmpCardsBySuit` is antisymmetric on component records. -/
theorem comps_anti_bySuit (l : List Card) (hl : ∀ c ∈ l, IsCompCard c) :
    ∀ a ∈ l, ∀ b ∈ l, cmpCardsBySuit a b ≤ 0 → cmpCardsBySuit b a ≤ 0 → a = b := by
  intro a ha b hb h1 h2
  obtain ⟨hv, hs⟩ := cmpCardsBySuit_eq a b h1 h2
  obtain ⟨i, hi1, hi2, rfl⟩ := hl a ha
  obtain ⟨j, hj1, hj2, rfl⟩ := hl b hb
  rw [cardComponents_inj hi1 hi2 hj1 hj2 hv hs]

/-- Kickers only depend on the multiset of hand cards. -/
theorem getKickers_congr (c1 c2 : List Card) (hperm : c1 ~ c2)
    (hcomp : ∀ c ∈ c1, IsCompCard c) :
    ∀ rc, getKickers c1 rc = getKickers c2 rc := by
  intro rc
  unfold getKickers
  refine sortCmp_congr cmpCardsByValue_total cmpCardsByValue_trans (hperm.filter _) ?_
  exact comps_anti_byValue _ (fun c hc => hcomp c (List.mem_of_mem_filter hc))

/-! ### Per-evaluator congruence under shared sorts -/

/-- `straightFlushEvaluate` reads only `cardsBySuit`. -/
theorem straightFlushEvaluate_congr (ctx1 ctx2 : EvalContext)
    (hbs : ctx1.cardsBySuit = ctx2.cardsBySuit) :
    straightFlushEvaluate ctx1 = straightFlushEvaluate ctx2 := by
  simp only [straightFlushEvaluate, hbs]

/-- `fourOfAKindEvaluate` reads the groups, the kickers via `cards`. -/
theorem fourOfAKindEvaluate_congr (ctx1 ctx2 : EvalContext)
    (hg : ctx1.cardGroupsBySize = ctx2.cardGroupsBySize)
    (hk : ∀ rc, getKickers ctx1.cards rc = getKickers ctx2.cards rc) :
    fourOfAKindEvaluate ctx1 = fourOfAKindEvaluate ctx2 := by
  simp only [fourOfAKindEvaluate, hg, hk]

/-- `fullHouseEvaluate` reads only the groups. -/
theorem fullHouseEvaluate_congr (ctx1 ctx2 : EvalContext)
    (hg : ctx1.cardGroupsBySize = ctx2.cardGroupsBySize) :
    fullHouseEvaluate ctx1 = fullHouseEvaluate ctx2 := by
  simp only [fullHouseEvaluate, hg]

/-- `flushEvaluate` reads only `cardsBySuit`. -/
theorem flushEvaluate_congr (ctx1 ctx2 : EvalContext)
    (hbs : ctx1.cardsBySuit = ctx2.cardsBySuit) :
    flushEvaluate ctx1 = flushEvaluate ctx2 := by
  simp only [flushEvaluate, hbs]

/-- `straightEvaluate` reads only `cardsByValue`. -/
theorem straightEvaluate_congr (ctx1 ctx2 : EvalContext)
    (hbv : ctx1.cardsByValue = ctx2.cardsByValue) :
    straightEvaluate ctx1 = straightEvaluate ctx2 := by
  simp only [straightEvaluate, hbv]

/-- `threeOfAKindEvaluate` congruence. -/
theorem threeOfAKindEvaluate_congr (ctx1 ctx2 : EvalContext)
    (hg : ctx1.cardGroupsBySize = ctx2.cardGroupsBySize)
    (hk : ∀ rc, getKickers ctx1.cards rc = getKickers ctx2.cards rc) :
    threeOfAKindEvaluate ctx1 = threeOfAKindEvaluate ctx2 := by
  simp only [threeOfAKindEvaluate, hg, hk]

/-- `twoPairEvaluate` congruence. -/
theorem twoPairEvaluate_congr (ctx1 ctx2 : EvalContext)
    (hg : ctx1.cardGroupsBySize = ctx2.cardGroupsBySize)
    (hk : ∀ rc, getKickers ctx1.cards rc = getKickers ctx2.cards rc) :
    twoPairEvaluate ctx1 = twoPairEvaluate ctx2 := by
  simp only [twoPairEvaluate, hg, hk]

/-- `pairEvaluate` congruence. -/
theorem pairEvaluate_congr (ctx1 ctx2 : EvalContext)
    (hg : ctx1.cardGroupsBySize = ctx2.cardGroupsBySize)
    (hk : ∀ rc, getKickers ctx1.cards rc = getKickers ctx2.cards rc) :
    pairEvaluate ctx1 = pairEvaluate ctx2 := by
  simp only [pairEvaluate, hg, hk]

/-- `highCardsEvaluate` reads only `cardsByValue`. -/
theorem highCardsEvaluate_congr (ctx1 ctx2 : EvalContext)
    (hbv : ctx1.cardsByValue = ctx2.cardsByValue) :
    highCardsEvaluate ctx1 = highCardsEvaluate ctx2 := by
  simp only [highCardsEvaluate, hbv]

/-! ### The evaluator table at each result type -/

theorem evaluators_sf : evaluators "straight-flush" =
    some ⟨5, 7, true, straightFlushEvaluate, some cmpResHighValue⟩ := rfl

theorem evaluators_quads : evaluators "four-of-a-kind" =
    some ⟨5, 7, true, fourOfAKindEvaluate, some cmpResValueKickers⟩ := rfl

theorem evaluators_fh : evaluators "full-house" =
    some ⟨5, 7, true, fullHouseEvaluate, some cmpResFullHouse⟩ := rfl

theorem evaluators_flush : evaluators "flush" =
    some ⟨5, 7, true, flushEvaluate, some cmpResKickers⟩ := rfl

theorem evaluators_straight : evaluators "straight" =
    some ⟨5, 7, true, straightEvaluate, some cmpResHighValue⟩ := rfl

theorem evaluators_trips : evaluators "three-of-a-kind" =
    some ⟨5, 7, true, threeOfAKindEvaluate, some cmpResValueKickers⟩ := rfl

theorem evaluators_twoPair : evaluators "two-pair" =
    some ⟨5, 7, true, twoPairEvaluate, some cmpResTwoPair⟩ := rfl

theorem evaluators_pair : evaluators "pair" =
    some ⟨5, 7, true, pairEvaluate, some cmpResValueKickers⟩ := rfl

theorem evaluators_high : evaluators "high-cards" =
    some ⟨5, 7, true, highCardsEvaluate, some cmpResKickers⟩ := rfl

/-- The result scan only depends on the context through the three sorts
and the kickers function. -/
theorem getHandResultGo_order_congr (ctx1 ctx2 : EvalContext)
    (hbv : ctx1.cardsByValue = ctx2.cardsByValue)
    (hbs : ctx1.cardsBySuit = ctx2.cardsBySuit)
    (hg : ctx1.cardGroupsBySize = ctx2.cardGroupsBySize)
    (hk : ∀ rc, getKickers ctx1.cards rc = getKickers ctx2.cards rc) :
    getHandResultGo ctx1 resultEvaluatorOrder =
      getHandResultGo ctx2 resultEvaluatorOrder := by
  rw [resultEvaluatorOrder]
  simp only [getHandResultGo, evaluators_sf, evaluators_quads, evaluators_fh,
    evaluators_flush, evaluators_straight, evaluators_trips, evaluators_twoPair,
    evaluators_pair, evaluators_high]
  rw [straightFlushEvaluate_congr ctx1 ctx2 hbs,
    fourOfAKindEvaluate_congr ctx1 ctx2 hg hk,
    fullHouseEvaluate_congr ctx1 ctx2 hg,
    flushEvaluate_congr ctx1 ctx2 hbs,
    straightEvaluate_congr ctx1 ctx2 hbv,
    threeOfAKindEvaluate_congr ctx1 ctx2 hg hk,
    twoPairEvaluate_congr ctx1 ctx2 hg hk,
    pairEvaluate_congr ctx1 ctx2 hg hk,
    highCardsEvaluate_congr ctx1 ctx2 hbv]

/-- `getHandResult` only depends on the multiset of hand cards. -/
theorem getHandResult_perm (h1 h2 : List Nat)
    (hperm : h1 ~ h2) (hnd : h1.Nodup)
    (hvalid : ∀ id ∈ h1, 1 ≤ id ∧ id ≤ 52)
    (hl5 : 5 ≤ h1.length) (hl7 : h1.length ≤ 7) :
    getHandResult h1 = getHandResult h2 := by
  have hnd2 : h2.Nodup := hperm.nodup_iff.1 hnd
  have hvalid2 : ∀ id ∈ h2, 1 ≤ id ∧ id ≤ 52 :=
    fun id hid => hvalid id (hperm.mem_iff.2 hid)
  have hl5' : 5 ≤ h2.length := hperm.length_eq ▸ hl5
  have hl7' : h2.length ≤ 7 := hperm.length_eq ▸ hl7
  have hcperm : h1.map cardComponents ~ h2.map cardComponents :=
    hperm.map cardComponents
  have hcomp : ∀ c ∈ h1.map cardComponents, IsCompCard c := by
    intro c hc
    obtain ⟨x, hx, rfl⟩ := List.mem_map.1 hc
    exact ⟨x, (hvalid x hx).1, (hvalid x hx).2, rfl⟩
  have hbvE : sortCmp cmpCardsByValue (h1.map cardComponents) =
      sortCmp cmpCardsByValue (h2.map cardComponents) :=
    sortCmp_congr cmpCardsByValue_total cmpCardsByValue_trans hcperm
      (comps_anti_byValue _ hcomp)
  have hbsE : sortCmp cmpCardsBySuit (h1.map cardComponents) =
      sortCmp cmpCardsBySuit (h2.map cardComponents) :=
    sortCmp_congr cmpCardsBySuit_total cmpCardsBySuit_trans hcperm
      (comps_anti_bySuit _ hcomp)
  have hkE : ∀ rc, getKickers (h1.map cardComponents) rc =
      getKickers (h2.map cardComponents) rc :=
    getKickers_congr _ _ hcperm hcomp
  rw [getHandResult, getHandResult,
    getEvalContext_ok h1 hvalid hnd hl5 hl7,
    getEvalContext_ok h2 hvalid2 hnd2 hl5' hl7']
  dsimp only
  refine congrArg Except.ok ?_
  exact getHandResultGo_order_congr _ _ hbvE hbsE (by dsimp only; rw [hbvE]) hkE

/-! ### Claim C2: the wheel -/

/-- Card identifier with the given components (in-range inputs assumed). -/
def cardIdOf (value suit : Nat) : Nat := (suit - 1) * 13 + (value - 1)

/-- The canonical A-2-3-4-5 hand with the given suits, one per value. -/
def wheelHand (s1 s2 s3 s4 s5 : Nat) : List Nat :=
  [cardIdOf 14 s1, cardIdOf 5 s2, cardIdOf 4 s3, cardIdOf 3 s4, cardIdOf 2 s5]

/-- The hand result the evaluator produces on the canonical wheel hand. -/
def wheelRes (s1 s2 s3 s4 s5 : Nat) : HandResult :=
  match getHandResult (wheelHand s1 s2 s3 s4 s5) with
  | .ok (some r) => r
  | _ => {}

set_option maxHeartbeats 4000000 in
/-- On each of the 1024 canonical wheel hands the evaluator reports a
straight-flush (suited) or a straight (unsuited) with high value 5, using each
of the hand's five cards exactly once. -/
theorem wheel_key : ∀ s1 ∈ [1, 2, 3, 4], ∀ s2 ∈ [1, 2, 3, 4], ∀ s3 ∈ [1, 2, 3, 4],
    ∀ s4 ∈ [1, 2, 3, 4], ∀ s5 ∈ [1, 2, 3, 4],
    (wheelHand s1 s2 s3 s4 s5).Nodup ∧
    (∀ id ∈ wheelHand s1 s2 s3 s4 s5, 1 ≤ id ∧ id ≤ 52) ∧
    getHandResult (wheelHand s1 s2 s3 s4 s5) = .ok (some (wheelRes s1 s2 s3 s4 s5)) ∧
    (wheelRes s1 s2 s3 s4 s5).highValue = 5 ∧
    ((s1 = s2 ∧ s2 = s3 ∧ s3 = s4 ∧ s4 = s5) →
      (wheelRes s1 s2 s3 s4 s5).type = "straight-flush") ∧
    (¬(s1 = s2 ∧ s2 = s3 ∧ s3 = s4 ∧ s4 = s5) →
      (wheelRes s1 s2 s3 s4 s5).type = "straight") ∧
    (wheelRes s1 s2 s3 s4 s5).cardIds ~ wheelHand s1 s2 s3 s4 s5 := by
  decide

/-- **C2.** For every 5-card hand consisting of the values {A,2,3,4,5} — i.e.
any permutation of the hand with value-suit pairs (14,s1), (5,s2), (4,s3),
(3,s4), (2,s5) — `getHandResult` returns a straight-flush with `highValue = 5`
when all five cards share one suit, and a straight with `highValue = 5` when
they do not; the result's card ids are exactly the five distinct input cards,
so the Ace serves as the low card and is not counted twice. -/
theorem c2_wheel (s1 s2 s3 s4 s5 : Nat) (hand : List Nat)
    (hs1 : s1 ∈ [1, 2, 3, 4]) (hs2 : s2 ∈ [1, 2, 3, 4]) (hs3 : s3 ∈ [1, 2, 3, 4])
    (hs4 : s4 ∈ [1, 2, 3, 4]) (hs5 : s5 ∈ [1, 2, 3, 4])
    (hhand : hand ~ wheelHand s1 s2 s3 s4 s5) :
    ∃ r : HandResult,
      getHandResult hand = .ok (some r) ∧
      r.highValue = 5 ∧
      ((s1 = s2 ∧ s2 = s3 ∧ s3 = s4 ∧ s4 = s5) → r.type = "straight-flush") ∧
      (¬(s1 = s2 ∧ s2 = s3 ∧ s3 = s4 ∧ s4 = s5) → r.type = "straight") ∧
      r.cardIds ~ hand ∧ r.cardIds.Nodup := by
  obtain ⟨hnd, hvalid, hres, hhv, hsf, hst, hperm⟩ :=
    wheel_key s1 hs1 s2 hs2 s3 hs3 s4 hs4 s5 hs5
  have hnd1 : hand.Nodup := hhand.nodup_iff.2 hnd
  have hvalid1 : ∀ id ∈ hand, 1 ≤ id ∧ id ≤ 52 :=
    fun id hid => hvalid id (hhand.mem_iff.1 hid)
  have hlen : hand.length = 5 := by rw [hhand.length_eq]; rfl
  have hgh : getHandResult hand = getHandResult (wheelHand s1 s2 s3 s4 s5) :=
    getHandResult_perm _ _ hhand hnd1 hvalid1 (by omega) (by omega)
  refine ⟨wheelRes s1 s2 s3 s4 s5, ?_, hhv, hsf, hst, ?_, ?_⟩
  · rw [hgh, hres]
  · exact hperm.trans hhand.symm
  · exact hperm.nodup_iff.2 hnd

/-- Witness for C2: the hand A♣ 5♦ 4♥ 3♠ 2♣ given in the order 2,A,5,4,3. -/
theorem c2_witness :
    ([1, 13, 17, 29, 41] : List Nat) ~ wheelHand 1 2 3 4 1 ∧
    ∃ r : HandResult,
      getHandResult [1, 13, 17, 29, 41] = .ok (some r) ∧
      r.highValue = 5 ∧
      (((1 : Nat) = 2 ∧ (2 : Nat) = 3 ∧ (3 : Nat) = 4 ∧ (4 : Nat) = 1) →
        r.type = "straight-flush") ∧
      (¬((1 : Nat) = 2 ∧ (2 : Nat) = 3 ∧ (3 : Nat) = 4 ∧ (4 : Nat) = 1) →
        r.type = "straight") ∧
      r.cardIds ~ [1, 13, 17, 29, 41] ∧ r.cardIds.Nodup :=
  ⟨by decide, c2_wheel 1 2 3 4 1 [1, 13, 17, 29, 41] (by decide) (by decide)
    (by decide) (by decide) (by decide) (by decide)⟩

/-! ## Claim C3: made hands suppress their draw counterpart -/

/-- One `processEvaluators` call appends at most one evaluation, whose
type tag is one of the requested evaluator types. -/
theorem processEvaluators_evals (ctx : EvalContext) (n : Nat) :
    ∀ (ts : List String) (st st' : FullEvalState),
      processEvaluators ctx n st ts = .ok st' →
      st'.evaluations = st.evaluations ∨
        ∃ e, e.type ∈ ts ∧ st'.evaluations = st.evaluations ++ [e] := by
  intro ts
  induction ts with
  | nil =>
    intro st st' h
    simp only [processEvaluators] at h
    injection h with h
    left
    rw [← h]
  | cons t ts ih =>
    intro st st' h
    rw [processEvaluators] at h
    cases hev : evaluators t with
    | none => rw [hev] at h; exact absurd h (by simp)
    | some ev =>
      rw [hev] at h
      dsimp only at h
      split at h
      · rcases ih st st' h with h1 | ⟨e, he, h2⟩
        · exact Or.inl h1
        · exact Or.inr ⟨e, List.mem_cons_of_mem _ he, h2⟩
      · cases heval : ev.evaluate ctx with
        | none =>
          rw [heval] at h
          dsimp only at h
          rcases ih st st' h with h1 | ⟨e, he, h2⟩
          · exact Or.inl h1
          · exact Or.inr ⟨e, List.mem_cons_of_mem _ he, h2⟩
        | some r0 =>
          rw [heval] at h
          dsimp only at h
          refine Or.inr ⟨{ r0 with type := t }, by simp, ?_⟩
          split at h
          · cases hres : st.result with
            | none =>
              rw [hres] at h
              dsimp only at h
              injection h with h
              rw [← h]
            | some cur =>
              rw [hres] at h
              dsimp only at h
              cases hc : compareHandResults { r0 with type := t } cur with
              | error e => rw [hc] at h; exact absurd h (by simp)
              | ok c =>
                rw [hc] at h
                dsimp only at h
                split at h <;> injection h with h <;> rw [← h]
          · injection h with h
            rw [← h]

/-- Each `processEvaluators` call appends a (possibly empty) delta of at
most one evaluation typed by the requested evaluator types. -/
theorem processEvaluators_delta (ctx : EvalContext) (n : Nat)
    (ts : List String) (st st' : FullEvalState)
    (h : processEvaluators ctx n st ts = .ok st') :
    ∃ dl, st'.evaluations = st.evaluations ++ dl ∧ dl.length ≤ 1 ∧
      ∀ e ∈ dl, e.type ∈ ts := by
  rcases processEvaluators_evals ctx n ts st st' h with h1 | ⟨e, he, h2⟩
  · exact ⟨[], by simp [h1], by simp, by simp⟩
  · refine ⟨[e], h2, by simp, ?_⟩
    intro x hx
    rw [List.mem_singleton.1 hx]
    exact he

/-- C3: the evaluations list of `getFullEvaluation` never reports the draw
counterpart of a made hand: no `flush-draw` entry coexists with a made
`flush`, and no `straight-draw` entry with a made `straight`. -/
theorem c3_made_hand_suppresses_draw (hand : List Nat) (fe : FullEvaluation)
    (h : getFullEvaluation hand = .ok fe) :
    ((∃ ef ∈ fe.evaluations, ef.type = "flush") →
      ∀ e ∈ fe.evaluations, e.type ≠ "flush-draw") ∧
    ((∃ ef ∈ fe.evaluations, ef.type = "straight") →
      ∀ e ∈ fe.evaluations, e.type ≠ "straight-draw") := by
  rw [getFullEvaluation] at h
  cases hctx : getEvalContext hand with
  | error e => rw [hctx] at h; simp at h
  | ok ctx =>
    rw [hctx] at h
    dsimp only at h
    split at h
    · simp at h
    · cases h1 : processEvaluators ctx hand.length {} ["straight-flush", "four-of-a-kind", "full-house"] with
      | error e => rw [h1] at h; simp at h
      | ok st1 =>
        rw [h1] at h
        dsimp only at h
        obtain ⟨d1, hd1, hl1, ht1⟩ := processEvaluators_delta ctx hand.length _ _ _ h1
        by_cases hres1 : st1.result = none
        · -- st1.result = none: the three further groups run
          rw [if_pos hres1] at h
          cases h2 : processEvaluators ctx hand.length st1
              ["three-of-a-kind", "two-pair", "pair", "high-cards"] with
          | error e => rw [h2] at h; simp at h
          | ok st2 =>
            rw [h2] at h
            dsimp only at h
            obtain ⟨d2, hd2, hl2, ht2⟩ := processEvaluators_delta ctx hand.length _ _ _ h2
            cases h3 : processEvaluators ctx hand.length st2 ["flush", "flush-draw"] with
            | error e => rw [h3] at h; simp at h
            | ok st3 =>
              rw [h3] at h
              dsimp only at h
              obtain ⟨d3, hd3, hl3, ht3⟩ := processEvaluators_delta ctx hand.length _ _ _ h3
              cases h4 : processEvaluators ctx hand.length st3 ["straight", "straight-draw"] with
              | error e => rw [h4] at h; simp at h
              | ok st4 =>
                rw [h4] at h
                dsimp only at h
                obtain ⟨d4, hd4, hl4, ht4⟩ := processEvaluators_delta ctx hand.length _ _ _ h4
                cases hres4 : st4.result with
                | none => rw [hres4] at h; simp at h
                | some r =>
                  rw [hres4] at h
                  dsimp only at h
                  injection h with h
                  have hevals : fe.evaluations = st4.evaluations := by rw [← h]
                  have hplace : ∀ x ∈ fe.evaluations,
                      x ∈ d1 ∨ x ∈ d2 ∨ x ∈ d3 ∨ x ∈ d4 := by
                    intro x hx
                    rw [hevals, hd4, hd3, hd2, hd1] at hx
                    simpa [List.mem_append, or_assoc] using hx
                  constructor
                  · rintro ⟨ef, hef, heft⟩ e he het
                    have hef3 : ef ∈ d3 := by
                      rcases hplace ef hef with hx | hx | hx | hx
                      · have := ht1 ef hx; rw [heft] at this; simp at this
                      · have := ht2 ef hx; rw [heft] at this; simp at this
                      · exact hx
                      · have := ht4 ef hx; rw [heft] at this; simp at this
                    have he3 : e ∈ d3 := by
                      rcases hplace e he with hx | hx | hx | hx
                      · have := ht1 e hx; rw [het] at this; simp at this
                      · have := ht2 e hx; rw [het] at this; simp at this
                      · exact hx
                      · have := ht4 e hx; rw [het] at this; simp at this
                    have hefe : ef = e := by
                      rcases d3 with _ | ⟨x, _ | ⟨y, tl⟩⟩
                      · simp at hef3
                      · rw [List.mem_singleton.1 hef3, List.mem_singleton.1 he3]
                      · simp at hl3
                    rw [hefe, het] at heft
                    exact absurd heft (by decide)
                  · rintro ⟨ef, hef, heft⟩ e he het
                    have hef4 : ef ∈ d4 := by
                      rcases hplace ef hef with hx | hx | hx | hx
                      · have := ht1 ef hx; rw [heft] at this; simp at this
                      · have := ht2 ef hx; rw [heft] at this; simp at this
                      · have := ht3 ef hx; rw [heft] at this; simp at this
                      · exact hx
                    have he4 : e ∈ d4 := by
                      rcases hplace e he with hx | hx | hx | hx
                      · have := ht1 e hx; rw [het] at this; simp at this
                      · have := ht2 e hx; rw [het] at this; simp at this
                      · have := ht3 e hx; rw [het] at this; simp at this
                      · exact hx
                    have hefe : ef = e := by
                      rcases d4 with _ | ⟨x, _ | ⟨y, tl⟩⟩
                      · simp at hef4
                      · rw [List.mem_singleton.1 hef4, List.mem_singleton.1 he4]
                      · simp at hl4
                    rw [hefe, het] at heft
                    exact absurd heft (by decide)
        · -- st1.result was already set: only the first group ran
          rw [if_neg hres1] at h
          dsimp only at h
          cases hres4 : st1.result with
          | none => rw [hres4] at h; simp at h
          | some r =>
            rw [hres4] at h
            dsimp only at h
            injection h with h
            have hevals : fe.evaluations = st1.evaluations := by rw [← h]
            have hplace : ∀ x ∈ fe.evaluations, x ∈ d1 := by
              intro x hx
              rw [hevals, hd1] at hx
              simpa using hx
            constructor
            · rintro ⟨ef, hef, heft⟩ e he het
              have := ht1 ef (hplace ef hef)
              rw [heft] at this
              simp at this
            · rintro ⟨ef, hef, heft⟩ e he het
              have := ht1 ef (hplace ef hef)
              rw [heft] at this
              simp at this

/-- Witness for C3: the spec's 6-card example with a made flush
(adds the ten of spades to four spades), which reports no flush-draw. -/
theorem c3_witness :
    ∃ fe : FullEvaluation,
      getFullEvaluation [42, 43, 44, 45, 30, 48] = .ok fe ∧
      ((∃ ef ∈ fe.evaluations, ef.type = "flush") →
        ∀ e ∈ fe.evaluations, e.type ≠ "flush-draw") := by
  refine ⟨_, rfl, (c3_made_hand_suppresses_draw [42, 43, 44, 45, 30, 48] _ rfl).1⟩

/-- Witness for C5: a concrete rng, a 2-player table and stacked cards
10, 20 (pocket) and 30, 40, 50 (community). -/
theorem c5_witness :
    ∃ (w dk : List Nat),
      getPartiallyStackedDeck [(0, [10, 20]), (2 * 2, [30, 40, 50])] (fun k => 13 * k + 5) =
        .ok dk ∧
      dk[0]? = some 10 ∧ dk[1]? = some 20 ∧ dk[2 * 2]? = some 30 ∧
      dk[2 * 2 + 1]? = some 40 ∧ dk[2 * 2 + 2]? = some 50 ∧
      dk ~ getUnshuffledDeck ∧
      w ~ getUnshuffledDeck.filter (fun i => decide (i ∉ ([10, 20, 30, 40, 50] : List Nat))) := by
  obtain ⟨w, dk, hw, hdkshape, heval, htake, hlen, hperm, h0, h1, h2, h3, h4⟩ :=
    c5_partially_stacked_deck (fun k => 13 * k + 5) 2 10 20 30 40 50 (by omega) (by omega)
      (by decide) (by decide)
  exact ⟨w, dk, heval, h0, h1, h2, h3, h4, hperm, hw⟩

end PokerSim
